import Mathlib

/-!
# LowPower_ADC_Wakeup_MAX32665: a model of `main.c`

The program configures three GPIO pins and the ADC, waits for a first button
press (`setTrigger`) and then samples the ADC in an endless loop, deciding in
each iteration between a soft reset, entering low-power mode and staying active.

The embedding is by explicit state passing.  Every call into the vendor library
is recorded as an `Event` in the trace of the `State`; the values the hardware
returns are read from an `Env`.  The button interrupt is asynchronous: before
every recorded action, and before every test of the volatile flag, there is an
interrupt window (`poll`) in which `buttonHandler` runs when the environment
raises the button edge at that instant.  Loops without a bound in the source
(`while (cond) ;`) take a bound on their iterations and report
`Outcome.running` when the bound is used up.

Calls into the vendor library are taken to return, `NVIC_SystemReset` apart,
which ends the run (`Outcome.reset`).

C `float` and `double` values are rationals produced by `fpRound`, IEEE-754
round-to-nearest-even at 24 and 53 bits of precision.
-/

namespace LowPower

/-! ## Floating point -/

/-- Round a rational to the nearest integer, ties to the even one. -/
def roundNE (x : ℚ) : ℤ :=
  let f := ⌊x⌋
  let r := x - f
  if r < 1 / 2 then f
  else if 1 / 2 < r then f + 1
  else if f % 2 = 0 then f else f + 1

/-- IEEE-754 round-to-nearest-even of `x` to a binary format with `p` bits of
precision, for `x` in the normal range of the format (all values the program
computes are: the voltage of a non-zero 32-bit code lies between 1e-3 and 6e6). -/
def fpRound (p : ℕ) (x : ℚ) : ℚ :=
  if x = 0 then 0
  else
    let e : ℤ := Int.log 2 |x|
    let ulp : ℚ := (2 : ℚ) ^ (e - ((p : ℤ) - 1))
    (roundNE (x / ulp) : ℚ) * ulp

/-- Conversion to C `double` (binary64). -/
def toDouble (x : ℚ) : ℚ := fpRound 53 x

/-- Conversion to C `float` (binary32). -/
def toFloat (x : ℚ) : ℚ := fpRound 24 x

/-- The value stored by `inputVolt = (adc_val * 1.2) / 1023;`: `adc_val` is
converted to `double`, multiplied by the `double` constant `1.2`, divided by
`1023` converted to `double`, and the quotient is converted to `float`. -/
def inputVoltOf (adc_val : ℕ) : ℚ :=
  toFloat (toDouble (toDouble (toDouble adc_val * toDouble (12 / 10)) / toDouble 1023))

/-- The expression `(adc_val * 1.2) / 1023` over exact rational arithmetic. -/
def voltExact (adc_val : ℕ) : ℚ := ((adc_val : ℚ) * (12 / 10)) / 1023

/-- The value `x` lies within the factors `a` and `b` of the exact value `y`. -/
def Within (a b x y : ℚ) : Prop := a * y ≤ x ∧ x ≤ b * y

/-! ## Platform -/

/-- The constant texts the program prints. -/
inductive Msg
  /-- The text `"Interrupt Occured.\n"`. -/
  | interruptOccured
  /-- The text `"Waking up from SLEEP mode.\n"`. -/
  | wakingUp
  /-- The text `" \n"`. -/
  | blank
  /-- The text `"Error Bad Parameter\n"`. -/
  | errorBadParameter
  /-- The text `"****Low Power Mode Example****\n\n"`. -/
  | banner
  /-- The text `"This code cycles through the MAX32655 power modes, ..."`. -/
  | description
  /-- The text `"Running in ACTIVE mode.\n"`. -/
  | runningActive
  /-- The text `"ADC Value \n\n"`. -/
  | adcValue
  /-- The text `"Imput Voltage \n\n"`. -/
  | inputVoltage
  /-- The text `"Soft Reset.\n"`. -/
  | softReset
  /-- The text `"Low Battery\n\n"`. -/
  | lowBattery
  /-- The text `"Device is in SLEEP MODE\n\n"`. -/
  | sleepMode
  deriving DecidableEq, Repr

/-- The pins of port `MXC_GPIO0` the program uses, `MXC_GPIO_PIN_18`,
`MXC_GPIO_PIN_19` and `MXC_GPIO_PIN_25`. -/
inductive Pin
  | P0_18
  | P0_19
  | P0_25
  deriving DecidableEq, Repr

/-- The pin of `gpio_interrupt`, the button. -/
def Interrupt_PIN_input : Pin := Pin.P0_18

/-- The pin of `gpio_in`, the reset request. -/
def Normal_PIN_input : Pin := Pin.P0_19

/-- The pin of `gpio_out`, the LED (active low). -/
def Normal_PIN_output : Pin := Pin.P0_25

/-- Modelled from the spec: the macro `MSEC` of `mxc_delay.h` is not among the
sources; the delay is 250 ms and `MXC_TMR_Delay` takes microseconds. -/
def MSEC (ms : ℕ) : ℕ := 1000 * ms

/-- What the program does to the outside: the calls into the vendor library
with their arguments and results, console output, and the `__NOP()` of the
debounce loop. -/
inductive Event
  | printf (m : Msg)
  /-- The call `printf("%d\n", adc_val)`. -/
  | printf_d (v : ℕ)
  /-- The call `printf("%f\n", inputVolt)`. -/
  | printf_f (v : ℚ)
  | MXC_GPIO_RegisterCallback (pin : Pin)
  /-- The call `MXC_GPIO_IntConfig(&gpio_interrupt, MXC_GPIO_INT_FALLING)`. -/
  | MXC_GPIO_IntConfig (pin : Pin)
  | MXC_GPIO_EnableInt (pin : Pin)
  | NVIC_EnableIRQ
  | MXC_GPIO_Config (pin : Pin)
  | MXC_ADC_Init (ret : ℤ)
  | MXC_ADC_SetMonitorChannel
  | MXC_ADC_SetMonitorHighThreshold (v : ℕ)
  | MXC_ADC_SetMonitorLowThreshold (v : ℕ)
  | MXC_ADC_EnableMonitor
  | MXC_LP_EnableGPIOWakeup (pin : Pin)
  | MXC_ADC_StartConversion (ret : ℤ)
  | MXC_GPIO_InGet (pin : Pin) (ret : ℕ)
  | MXC_UART_ReadyForSleep (ret : ℤ)
  | NVIC_SystemReset
  | MXC_GPIO_OutClr (pin : Pin)
  | MXC_GPIO_OutSet (pin : Pin)
  | MXC_LP_EnterLowPowerMode
  | MXC_TMR_Delay (us : ℕ)
  | NOP
  deriving DecidableEq, Repr

/-- Console output, as opposed to an action on the hardware. -/
def Event.isConsole : Event → Bool
  | .printf _ => true
  | .printf_d _ => true
  | .printf_f _ => true
  | _ => false

/-- The hardware actions of a trace, in order: the trace without console output. -/
def hw (tr : List Event) : List Event := tr.filter (fun e => !e.isConsole)

/-- The hardware and the headers, as far as the program observes them. -/
structure Env where
  /-- The constant `E_NO_ERROR` of `mxc_errors.h`. -/
  E_NO_ERROR : ℤ
  /-- The value `MXC_ADC_Init()` returns. -/
  adcInit : ℤ
  /-- The value the `n`-th call of `MXC_ADC_StartConversion` returns. -/
  adc : ℕ → ℤ
  /-- The value the `n`-th call of `MXC_GPIO_InGet` on P0.19 returns. -/
  pin : ℕ → ℕ
  /-- The value the `n`-th call of `MXC_UART_ReadyForSleep` returns. -/
  uart : ℕ → ℤ
  /-- Whether the button raises its falling-edge interrupt at the `t`-th
  interrupt window. -/
  irq : ℕ → Bool

/-- The globals of `main.c`, the local `inputVolt` of `main`, and the
bookkeeping of the model: the trace and how much of the environment has been
consumed. -/
structure State where
  /-- The global `unsigned int adc_val`. -/
  adc_val : ℕ
  /-- The global `volatile int buttonPressed`. -/
  buttonPressed : ℤ
  /-- The local `float inputVolt` of `main`. -/
  inputVolt : ℚ
  /-- Whether the GPIO interrupt has been enabled in the NVIC. -/
  irqEnabled : Bool
  /-- The number of interrupt windows passed. -/
  time : ℕ
  /-- The number of ADC conversions made. -/
  nAdc : ℕ
  /-- The number of reads of the reset pin made. -/
  nPin : ℕ
  /-- The number of calls of `MXC_UART_ReadyForSleep` made. -/
  nUart : ℕ
  /-- Everything done so far, oldest first. -/
  trace : List Event
  deriving DecidableEq, Repr

/-- The state at reset: globals are zero, nothing has happened. -/
def State.init : State :=
  { adc_val := 0, buttonPressed := 0, inputVolt := 0, irqEnabled := false,
    time := 0, nAdc := 0, nPin := 0, nUart := 0, trace := [] }

/-- The loops of the program that have no bound. -/
inductive Loop
  /-- The loop `while (1) ;` after a failed `MXC_ADC_Init`. -/
  | spin
  /-- The loop `while (!buttonPressed) ;` of `setTrigger`. -/
  | waitTrigger
  /-- A loop `while (MXC_UART_ReadyForSleep(...) != E_NO_ERROR) ;`. -/
  | uartDrain
  /-- The sampling loop `while (1) { ... }` of `main`. -/
  | mainLoop
  deriving DecidableEq, Repr

/-- How far a piece of the program gets. -/
inductive Outcome
  /-- Control left the piece at its end. -/
  | done (s : State)
  /-- `NVIC_SystemReset` was called; it does not return. -/
  | reset (s : State)
  /-- The iteration bound was used up inside the loop `l`. -/
  | running (l : Loop) (s : State)
  deriving DecidableEq, Repr

/-- The state an outcome carries. -/
def Outcome.state : Outcome → State
  | .done s => s
  | .reset s => s
  | .running _ s => s

/-- Sequencing: continue with `k` when control left the first piece. -/
def Outcome.andThen (o : Outcome) (k : State → Outcome) : Outcome :=
  match o with
  | .done s => k s
  | .reset s => .reset s
  | .running l s => .running l s

/-- The calls of `MXC_UART_ReadyForSleep` number `n` to `n + k - 1`, with the
values they return. -/
def uartPolls (env : Env) (n k : ℕ) : List Event :=
  (List.range k).map fun j => Event.MXC_UART_ReadyForSleep (env.uart (n + j))

/-! ## The program -/

/-- The three lines `buttonHandler` prints. -/
def handlerOutput : List Event :=
  [.printf .interruptOccured, .printf .wakingUp, .printf .blank]

/-- The function `buttonHandler` of `main.c`. -/
def buttonHandler (s : State) : State :=
  { s with
    buttonPressed := 1
    trace := s.trace ++ handlerOutput }

/-- An interrupt window: the handler runs if the interrupt is enabled and the
button raises it now. -/
def poll (env : Env) (s : State) : State :=
  let s1 := if s.irqEnabled && env.irq s.time then buttonHandler s else s
  { s1 with time := s1.time + 1 }

/-- One action of the program, after an interrupt window. -/
def emit (env : Env) (e : Event) (s : State) : State :=
  let s1 := poll env s
  { s1 with trace := s1.trace ++ [e] }

/-- The loop `while (MXC_UART_ReadyForSleep(MXC_UART_GET_UART(CONSOLE_UART)) != E_NO_ERROR) ;`
run for at most `fuel` calls. -/
def uartDrain (env : Env) : ℕ → State → Outcome
  | 0, s => .running .uartDrain s
  | fuel + 1, s =>
    let r := env.uart s.nUart
    let s1 := { emit env (.MXC_UART_ReadyForSleep r) s with nUart := s.nUart + 1 }
    if r ≠ env.E_NO_ERROR then uartDrain env fuel s1 else .done s1

/-- The loop `while (!buttonPressed) ;` run for at most `fuel` tests of the flag. -/
def waitTrigger (env : Env) : ℕ → State → Outcome
  | 0, s => .running .waitTrigger s
  | fuel + 1, s =>
    let s1 := poll env s
    if s1.buttonPressed = 0 then waitTrigger env fuel s1 else .done s1

/-- The bound `0x100000` of the debounce loop. -/
def debounceCount : ℕ := 0x100000

/-- The loop `for (tmp = 0; tmp < 0x100000; tmp++) { __NOP(); }` from the value
`tmp` of the counter on. -/
def debounce (env : Env) (tmp : ℕ) (s : State) : State :=
  if tmp < debounceCount then debounce env (tmp + 1) (emit env .NOP s) else s
termination_by debounceCount - tmp

/-- The function `setTrigger` of `main.c`. -/
def setTrigger (env : Env) (fuel : ℕ) (waitForTrigger : ℤ) (s : State) : Outcome :=
  let s0 := { s with buttonPressed := 0 }
  (if waitForTrigger ≠ 0 then waitTrigger env fuel s0 else .done s0).andThen fun s1 =>
  uartDrain env fuel (debounce env 0 s1)

/-- The conversion of the `int` result of `MXC_ADC_StartConversion` to the
`unsigned int` it is stored in. -/
def toUInt32 (r : ℤ) : ℕ := (r % 4294967296).toNat

/-- The start of an iteration of the sampling loop: the conversion, the
voltage computed from it, and their output. -/
def readAdc (env : Env) (s : State) : State :=
  let r := env.adc s.nAdc
  let s := { emit env (.MXC_ADC_StartConversion r) s with
             nAdc := s.nAdc + 1, adc_val := toUInt32 r }
  let s := emit env (.printf_d s.adc_val) s
  let s := emit env (.printf .adcValue) s
  let s := { s with inputVolt := inputVoltOf s.adc_val }
  let s := emit env (.printf_f s.inputVolt) s
  emit env (.printf .inputVoltage) s

/-- Modelled from the spec: `NVIC_SystemReset` belongs to the CMSIS headers,
which are not among the sources; it is a full system reset, called without
arguments, that never returns. -/
def NVIC_SystemReset (env : Env) (s : State) : Outcome :=
  .reset (emit env .NVIC_SystemReset s)

/-- Modelled from the spec: `MXC_LP_EnterLowPowerMode` belongs to the vendor
library, which is not among the sources; it suspends execution until a wake-up
source fires and then resumes at the following instruction, so the call returns. -/
def MXC_LP_EnterLowPowerMode (env : Env) (s : State) : State :=
  emit env .MXC_LP_EnterLowPowerMode s

/-- The branch taken when the reset pin reads low: log, drain the serial
output, `NVIC_SystemReset()`. -/
def softReset (env : Env) (fuel : ℕ) (s : State) : Outcome :=
  (uartDrain env fuel (emit env (.printf .softReset) s)).andThen (NVIC_SystemReset env)

/-- The branch taken when `inputVolt <= 0.5`: LED on, log, drain the serial
output, `MXC_LP_EnterLowPowerMode()`. -/
def enterSleep (env : Env) (fuel : ℕ) (s : State) : Outcome :=
  let s := emit env (.MXC_GPIO_OutClr Normal_PIN_output) s
  let s := emit env (.printf .lowBattery) s
  let s := emit env (.printf .sleepMode) s
  (uartDrain env fuel s).andThen fun s =>
  .done (MXC_LP_EnterLowPowerMode env s)

/-- The read `MXC_GPIO_InGet(gpio_in.port, gpio_in.mask)` of the reset pin. -/
def readPin (env : Env) (s : State) : State :=
  { emit env (.MXC_GPIO_InGet Normal_PIN_input (env.pin s.nPin)) s with nPin := s.nPin + 1 }

/-- The body of the sampling loop `while (1) { ... }` of `main`, one iteration. -/
def loopBody (env : Env) (fuel : ℕ) (s : State) : Outcome :=
  let s1 := readAdc env s
  let s2 := readPin env s1
  (if env.pin s1.nPin = 0 then softReset env fuel s2 else .done s2).andThen fun s =>
  (if s.inputVolt ≤ 1 / 2 then enterSleep env fuel s
   else .done (emit env (.MXC_GPIO_OutSet Normal_PIN_output) s)).andThen fun s =>
  .done (emit env (.MXC_TMR_Delay (MSEC 250)) s)

/-- The sampling loop `while (1) { ... }` of `main`, run for at most `n`
iterations, every inner loop for at most `fuel`. -/
def mainLoop (env : Env) (fuel : ℕ) : ℕ → State → Outcome
  | 0, s => .running .mainLoop s
  | n + 1, s => (loopBody env fuel s).andThen (mainLoop env fuel n)

/-- The loop `while (1) ;` after a failed ADC initialisation: nothing but
interrupt windows. -/
def spin (env : Env) : ℕ → State → Outcome
  | 0, s => .running .spin s
  | fuel + 1, s => spin env fuel (poll env s)

/-- The start of `main`: the button interrupt, the two plain pins, and the
call of `MXC_ADC_Init`. -/
def configure (env : Env) (s : State) : State :=
  let s := emit env (.MXC_GPIO_RegisterCallback Interrupt_PIN_input) s
  let s := emit env (.MXC_GPIO_IntConfig Interrupt_PIN_input) s
  let s := emit env (.MXC_GPIO_EnableInt Interrupt_PIN_input) s
  let s := { emit env .NVIC_EnableIRQ s with irqEnabled := true }
  let s := emit env (.MXC_GPIO_Config Normal_PIN_input) s
  let s := emit env (.MXC_GPIO_Config Normal_PIN_output) s
  emit env (.MXC_ADC_Init env.adcInit) s

/-- The ADC monitor set-up and the banner, after a successful `MXC_ADC_Init`. -/
def announce (env : Env) (s : State) : State :=
  let s := emit env .MXC_ADC_SetMonitorChannel s
  let s := emit env (.MXC_ADC_SetMonitorHighThreshold 0x300) s
  let s := emit env (.MXC_ADC_SetMonitorLowThreshold 0x25) s
  let s := emit env .MXC_ADC_EnableMonitor s
  let s := { s with inputVolt := 0 }
  let s := emit env (.printf .banner) s
  let s := emit env (.printf .description) s
  emit env (.printf .runningActive) s

/-- The part of `main` after a successful `MXC_ADC_Init`. -/
def mainAfterInit (env : Env) (fuel : ℕ) (s : State) : Outcome :=
  (setTrigger env fuel 1 (announce env s)).andThen fun s =>
  mainLoop env fuel fuel (emit env (.MXC_LP_EnableGPIOWakeup Interrupt_PIN_input) s)

/-- The function `main` of `main.c`, every loop run for at most `fuel`
iterations. -/
def main (env : Env) (fuel : ℕ) (s : State) : Outcome :=
  let s := configure env s
  if env.adcInit ≠ env.E_NO_ERROR then
    spin env fuel (emit env (.printf .errorBadParameter) s)
  else mainAfterInit env fuel s

/-! ## Notions used in the statements -/

/-- From `s` to `s'` the trace has only grown, by events that satisfy `P`. -/
def Ext (P : Event → Prop) (s s' : State) : Prop :=
  ∃ l, s'.trace = s.trace ++ l ∧ ∀ e ∈ l, P e

/-- The event is an ADC conversion. -/
def Event.isAdc : Event → Bool
  | .MXC_ADC_StartConversion _ => true
  | _ => false

/-- The event is not an ADC conversion. -/
def Event.notAdc (e : Event) : Prop := e.isAdc = false

/-- The button raises its interrupt, and the interrupt is enabled, at some
interrupt window between those of `s` and `s'`. -/
def Pressed (env : Env) (s s' : State) : Prop :=
  s.irqEnabled = true ∧ ∃ t, s.time ≤ t ∧ t < s'.time ∧ env.irq t = true

/-- The program is inside the loop `while (1) ;` of the failed initialisation. -/
def Outcome.inSpin : Outcome → Bool
  | .running .spin _ => true
  | _ => false

/-- The hardware actions of `configure`. -/
def configureActions (env : Env) : List Event :=
  [.MXC_GPIO_RegisterCallback Interrupt_PIN_input,
   .MXC_GPIO_IntConfig Interrupt_PIN_input,
   .MXC_GPIO_EnableInt Interrupt_PIN_input,
   .NVIC_EnableIRQ,
   .MXC_GPIO_Config Normal_PIN_input,
   .MXC_GPIO_Config Normal_PIN_output,
   .MXC_ADC_Init env.adcInit]

/-- The hardware actions of `announce`: the ADC monitor set-up. -/
def monitorActions : List Event :=
  [.MXC_ADC_SetMonitorChannel,
   .MXC_ADC_SetMonitorHighThreshold 0x300,
   .MXC_ADC_SetMonitorLowThreshold 0x25,
   .MXC_ADC_EnableMonitor]

/-- The flag behaves as a latch from `s` to `s'`: it is 1 if the button was
pressed in between and unchanged otherwise; the clock only advances and the
interrupt stays as enabled as it was. -/
def Latch (env : Env) (s s' : State) : Prop :=
  s'.irqEnabled = s.irqEnabled ∧ s.time ≤ s'.time ∧
  (Pressed env s s' → s'.buttonPressed = 1) ∧
  (¬ Pressed env s s' → s'.buttonPressed = s.buttonPressed)

/-- A test bench environment: every conversion returns `code`, the reset pin
always reads `level`, the UART reports busy (-1) on its first `busy` calls and
`E_NO_ERROR = 0` afterwards, `MXC_ADC_Init` returns `init`, and the button
raises its interrupt at every instant from `press` on. -/
def benchEnv (init code : ℤ) (level busy press : ℕ) : Env where
  E_NO_ERROR := 0
  adcInit := init
  adc := fun _ => code
  pin := fun _ => level
  uart := fun n => if n < busy then -1 else 0
  irq := fun t => decide (press ≤ t)

/-! ## Lemmas -/

/-! ### Rounding error -/

theorem roundNE_err (x : ℚ) : |(roundNE x : ℚ) - x| ≤ 1 / 2 := by
  have h1 : ((⌊x⌋ : ℤ) : ℚ) ≤ x := Int.floor_le x
  have h2 : x < ((⌊x⌋ : ℤ) : ℚ) + 1 := Int.lt_floor_add_one x
  unfold roundNE
  simp only
  split_ifs with ha hb hc
  · rw [abs_le]; constructor <;> linarith
  · rw [abs_le]; push_cast; constructor <;> linarith
  · rw [abs_le]; constructor <;> linarith
  · rw [abs_le]; push_cast; constructor <;> linarith

theorem fpRound_err (p : ℕ) (x : ℚ) (hx : 0 < x) :
    |fpRound p x - x| ≤ x * (2 : ℚ) ^ (-(p : ℤ)) := by
  unfold fpRound
  rw [if_neg hx.ne']
  simp only
  rw [abs_of_pos hx]
  set e : ℤ := Int.log 2 x with he
  set ulp : ℚ := (2 : ℚ) ^ (e - ((p : ℤ) - 1)) with hulp
  have hulp_pos : 0 < ulp := by positivity
  have hle : (2 : ℚ) ^ e ≤ x := by
    have := Int.zpow_log_le_self (b := 2) (r := x) (by norm_num) hx
    simpa using this
  have herr := roundNE_err (x / ulp)
  have h1 : (roundNE (x / ulp) : ℚ) * ulp - x = ((roundNE (x / ulp) : ℚ) - x / ulp) * ulp := by
    field_simp
  rw [h1, abs_mul, abs_of_pos hulp_pos]
  have h2 : (1 / 2 : ℚ) * ulp = (2 : ℚ) ^ e * (2 : ℚ) ^ (-(p : ℤ)) := by
    rw [hulp, ← zpow_add₀ (by norm_num : (2 : ℚ) ≠ 0)]
    have : e - ((p : ℤ) - 1) = (e + -(p : ℤ)) + 1 := by ring
    rw [this, zpow_add_one₀ (by norm_num : (2 : ℚ) ≠ 0)]
    ring
  calc |(roundNE (x / ulp) : ℚ) - x / ulp| * ulp ≤ (1 / 2) * ulp :=
        mul_le_mul_of_nonneg_right herr hulp_pos.le
    _ = (2 : ℚ) ^ e * (2 : ℚ) ^ (-(p : ℤ)) := h2
    _ ≤ x * (2 : ℚ) ^ (-(p : ℤ)) := mul_le_mul_of_nonneg_right hle (by positivity)

theorem within_refl (y : ℚ) : Within 1 1 y y := by
  constructor <;> simp

theorem within_pos {a b x y : ℚ} (ha : 0 < a) (hy : 0 < y) (h : Within a b x y) : 0 < x :=
  lt_of_lt_of_le (mul_pos ha hy) h.1

theorem two_zpow_neg_le_one (p : ℕ) : (2 : ℚ) ^ (-(p : ℤ)) ≤ 1 := by
  rw [zpow_neg, zpow_natCast]
  exact inv_le_one_of_one_le₀ (one_le_pow₀ (by norm_num))

theorem within_round (p : ℕ) {a b x y : ℚ} (ha : 0 < a) (hy : 0 < y) (h : Within a b x y) :
    Within (a * (1 - (2 : ℚ) ^ (-(p : ℤ)))) (b * (1 + (2 : ℚ) ^ (-(p : ℤ)))) (fpRound p x) y := by
  have hx : 0 < x := within_pos ha hy h
  have herr := fpRound_err p x hx
  rw [abs_le] at herr
  have hu1 : (2 : ℚ) ^ (-(p : ℤ)) ≤ 1 := two_zpow_neg_le_one p
  have hu0 : 0 < (2 : ℚ) ^ (-(p : ℤ)) := by positivity
  constructor
  · calc a * (1 - (2 : ℚ) ^ (-(p : ℤ))) * y = (a * y) * (1 - (2 : ℚ) ^ (-(p : ℤ))) := by ring
      _ ≤ x * (1 - (2 : ℚ) ^ (-(p : ℤ))) := mul_le_mul_of_nonneg_right h.1 (by linarith)
      _ ≤ fpRound p x := by linarith [herr.1]
  · calc fpRound p x ≤ x * (1 + (2 : ℚ) ^ (-(p : ℤ))) := by linarith [herr.2]
      _ ≤ (b * y) * (1 + (2 : ℚ) ^ (-(p : ℤ))) := mul_le_mul_of_nonneg_right h.2 (by linarith)
      _ = b * (1 + (2 : ℚ) ^ (-(p : ℤ))) * y := by ring

theorem within_mul {a₁ b₁ x₁ y₁ a₂ b₂ x₂ y₂ : ℚ} (ha₁ : 0 < a₁) (hy₁ : 0 < y₁)
    (ha₂ : 0 < a₂) (hy₂ : 0 < y₂) (h₁ : Within a₁ b₁ x₁ y₁) (h₂ : Within a₂ b₂ x₂ y₂) :
    Within (a₁ * a₂) (b₁ * b₂) (x₁ * x₂) (y₁ * y₂) := by
  have hx₁ : 0 < x₁ := within_pos ha₁ hy₁ h₁
  have hx₂ : 0 < x₂ := within_pos ha₂ hy₂ h₂
  constructor
  · calc a₁ * a₂ * (y₁ * y₂) = (a₁ * y₁) * (a₂ * y₂) := by ring
      _ ≤ x₁ * x₂ := mul_le_mul h₁.1 h₂.1 (mul_pos ha₂ hy₂).le hx₁.le
  · calc x₁ * x₂ ≤ (b₁ * y₁) * (b₂ * y₂) :=
        mul_le_mul h₁.2 h₂.2 hx₂.le (le_trans hx₁.le h₁.2)
      _ = b₁ * b₂ * (y₁ * y₂) := by ring

theorem within_div {a₁ b₁ x₁ y₁ a₂ b₂ x₂ y₂ : ℚ} (ha₁ : 0 < a₁) (hy₁ : 0 < y₁)
    (ha₂ : 0 < a₂) (hy₂ : 0 < y₂) (h₁ : Within a₁ b₁ x₁ y₁) (h₂ : Within a₂ b₂ x₂ y₂) :
    Within (a₁ / b₂) (b₁ / a₂) (x₁ / x₂) (y₁ / y₂) := by
  have hx₁ : 0 < x₁ := within_pos ha₁ hy₁ h₁
  have hx₂ : 0 < x₂ := within_pos ha₂ hy₂ h₂
  have hb₂ : 0 < b₂ := by
    by_contra hneg
    have : b₂ * y₂ ≤ 0 := mul_nonpos_of_nonpos_of_nonneg (not_lt.mp hneg) hy₂.le
    linarith [h₂.2]
  constructor
  · rw [div_mul_div_comm, div_le_div_iff₀ (mul_pos hb₂ hy₂) hx₂]
    calc a₁ * y₁ * x₂ ≤ x₁ * x₂ := mul_le_mul_of_nonneg_right h₁.1 hx₂.le
      _ ≤ x₁ * (b₂ * y₂) := mul_le_mul_of_nonneg_left h₂.2 hx₁.le
  · rw [div_mul_div_comm, div_le_div_iff₀ hx₂ (mul_pos ha₂ hy₂)]
    calc x₁ * (a₂ * y₂) ≤ x₁ * x₂ := mul_le_mul_of_nonneg_left h₂.1 hx₁.le
      _ ≤ b₁ * y₁ * x₂ := mul_le_mul_of_nonneg_right h₁.2 hx₂.le

theorem within_mono {a b a' b' x y : ℚ} (hy : 0 ≤ y) (h : Within a b x y)
    (ha : a' ≤ a) (hb : b ≤ b') : Within a' b' x y :=
  ⟨le_trans (mul_le_mul_of_nonneg_right ha hy) h.1,
   le_trans h.2 (mul_le_mul_of_nonneg_right hb hy)⟩

theorem voltExact_pos {c : ℕ} (hc : 0 < c) : 0 < voltExact c := by
  unfold voltExact
  have : (0 : ℚ) < c := by exact_mod_cast hc
  positivity

/-- The stored `float` voltage differs from the exact quotient by a relative
error of at most `2^-22`. -/
theorem inputVoltOf_within {c : ℕ} (hc : 0 < c) :
    Within (1 - 1 / 2 ^ 22) (1 + 1 / 2 ^ 22) (inputVoltOf c) (voltExact c) := by
  have hcq : (0 : ℚ) < c := by exact_mod_cast hc
  have hA := within_round 53 (by norm_num) hcq (within_refl (c : ℚ))
  have hB := within_round 53 (by norm_num) (by norm_num) (within_refl (12 / 10 : ℚ))
  have hD := within_round 53 (by norm_num) (by norm_num) (within_refl (1023 : ℚ))
  have hP := within_round 53 (by norm_num) (mul_pos hcq (by norm_num))
    (within_mul (by norm_num) hcq (by norm_num) (by norm_num) hA hB)
  have hQ := within_round 53 (by norm_num) (div_pos (mul_pos hcq (by norm_num)) (by norm_num))
    (within_div (by norm_num) (mul_pos hcq (by norm_num)) (by norm_num) (by norm_num) hP hD)
  have hF := within_round 24 (by norm_num) (div_pos (mul_pos hcq (by norm_num)) (by norm_num)) hQ
  exact within_mono (voltExact_pos hc).le hF (by norm_num) (by norm_num)

theorem inputVoltOf_zero : inputVoltOf 0 = 0 := by
  simp [inputVoltOf, toFloat, toDouble, fpRound]

theorem inputVoltOf_lt_half {c : ℕ} (h : c ≤ 426) : inputVoltOf c < 1 / 2 := by
  rcases Nat.eq_zero_or_pos c with h0 | hpos
  · subst h0; rw [inputVoltOf_zero]; norm_num
  have h2 := (inputVoltOf_within hpos).2
  have hv : voltExact c = (c : ℚ) * (12 / 10) / 1023 := rfl
  rw [hv] at h2
  have hc : (c : ℚ) ≤ 426 := by exact_mod_cast h
  have : (1 + 1 / 2 ^ 22 : ℚ) * ((c : ℚ) * (12 / 10) / 1023)
      ≤ (1 + 1 / 2 ^ 22) * ((426 : ℚ) * (12 / 10) / 1023) := by
    apply mul_le_mul_of_nonneg_left _ (by norm_num)
    linarith
  have h426 : (1 + 1 / 2 ^ 22 : ℚ) * ((426 : ℚ) * (12 / 10) / 1023) < 1 / 2 := by norm_num
  linarith

theorem half_lt_inputVoltOf {c : ℕ} (h : 427 ≤ c) : 1 / 2 < inputVoltOf c := by
  have h1 := (inputVoltOf_within (c := c) (by omega)).1
  have hv : voltExact c = (c : ℚ) * (12 / 10) / 1023 := rfl
  rw [hv] at h1
  have hc : (427 : ℚ) ≤ c := by exact_mod_cast h
  have : (1 - 1 / 2 ^ 22 : ℚ) * ((427 : ℚ) * (12 / 10) / 1023)
      ≤ (1 - 1 / 2 ^ 22) * ((c : ℚ) * (12 / 10) / 1023) := by
    apply mul_le_mul_of_nonneg_left _ (by norm_num)
    linarith
  have h427 : (1 / 2 : ℚ) < (1 - 1 / 2 ^ 22 : ℚ) * ((427 : ℚ) * (12 / 10) / 1023) := by
    norm_num
  linarith

/-- The test `inputVolt <= 0.5` on the stored `float` holds exactly for the
codes up to 426. -/
theorem inputVoltOf_le_half_iff (c : ℕ) : inputVoltOf c ≤ 1 / 2 ↔ c ≤ 426 := by
  constructor
  · intro h
    by_contra hgt
    have := half_lt_inputVoltOf (c := c) (by omega)
    linarith
  · intro h
    exact (inputVoltOf_lt_half h).le

theorem voltExact_le_half_iff (c : ℕ) : voltExact c ≤ 1 / 2 ↔ c ≤ 426 := by
  unfold voltExact
  rw [div_le_iff₀ (by norm_num : (0 : ℚ) < 1023)]
  constructor
  · intro h
    by_contra hgt
    have hc : (427 : ℚ) ≤ c := by exact_mod_cast (by omega : 427 ≤ c)
    linarith
  · intro h
    have hc : (c : ℚ) ≤ 426 := by exact_mod_cast h
    linarith

/-! ### The stored voltage of the boundary codes -/

theorem roundNE_eq {y : ℚ} {m : ℤ} (h1 : (m : ℚ) - 1 / 2 < y) (h2 : y < (m : ℚ) + 1 / 2) :
    roundNE y = m := by
  unfold roundNE
  simp only
  by_cases hy : (m : ℚ) ≤ y
  · have hf : ⌊y⌋ = m := Int.floor_eq_iff.2 ⟨hy, by linarith⟩
    rw [hf, if_pos (by linarith)]
  · have hf : ⌊y⌋ = m - 1 := Int.floor_eq_iff.2 ⟨by push_cast; linarith, by push_cast; linarith⟩
    rw [hf, if_neg (by push_cast; linarith), if_pos (by push_cast; linarith)]
    ring

/-- Evaluation of `fpRound`: the binade `e` of `x` and the significand `m`
nearest to `x` determine the result. -/
theorem fpRound_eq (p : ℕ) {x : ℚ} (e m : ℤ) (hx : 0 < x) (hlo : (2 : ℚ) ^ e ≤ x)
    (hhi : x < (2 : ℚ) ^ (e + 1))
    (h1 : (m : ℚ) - 1 / 2 < x / (2 : ℚ) ^ (e - ((p : ℤ) - 1)))
    (h2 : x / (2 : ℚ) ^ (e - ((p : ℤ) - 1)) < (m : ℚ) + 1 / 2) :
    fpRound p x = (m : ℚ) * (2 : ℚ) ^ (e - ((p : ℤ) - 1)) := by
  have hlog : Int.log 2 x = e := by
    apply le_antisymm
    · have := (Int.lt_zpow_iff_log_lt (b := 2) (by norm_num) hx).1 (by exact_mod_cast hhi)
      omega
    · exact (Int.zpow_le_iff_le_log (b := 2) (by norm_num) hx).1 (by exact_mod_cast hlo)
  unfold fpRound
  rw [if_neg hx.ne']
  simp only
  rw [abs_of_pos hx, hlog, roundNE_eq h1 h2]

theorem toDouble_six_fifths : toDouble (12 / 10) = 5404319552844595 / 2 ^ 52 := by
  rw [toDouble, fpRound_eq 53 0 5404319552844595 (by norm_num) (by norm_num) (by norm_num)
    (by norm_num) (by norm_num)]
  norm_num

theorem toDouble_1023 : toDouble 1023 = 1023 := by
  rw [toDouble, fpRound_eq 53 9 8998403161718784 (by norm_num) (by norm_num) (by norm_num)
    (by norm_num) (by norm_num)]
  norm_num

/-- The `float` stored for code 426 is the binary32 number 0.4997067451477051. -/
theorem inputVoltOf_426 : inputVoltOf 426 = 16767376 / 2 ^ 25 := by
  have hA : toDouble 426 = 426 := by
    rw [toDouble, fpRound_eq 53 8 7494271254921216 (by norm_num) (by norm_num) (by norm_num)
      (by norm_num) (by norm_num)]
    norm_num
  have hP : toDouble (426 * (5404319552844595 / 2 ^ 52)) = 8993125505905459 / 2 ^ 44 := by
    rw [toDouble, fpRound_eq 53 8 8993125505905459 (by norm_num) (by norm_num) (by norm_num)
      (by norm_num) (by norm_num)]
    norm_num
  have hQ : toDouble (8993125505905459 / 2 ^ 44 / 1023) = 9001916439928827 / 2 ^ 54 := by
    rw [toDouble, fpRound_eq 53 (-2) 9001916439928827 (by norm_num) (by norm_num) (by norm_num)
      (by norm_num) (by norm_num)]
    norm_num
  have hF : toFloat (9001916439928827 / 2 ^ 54) = 16767376 / 2 ^ 25 := by
    rw [toFloat, fpRound_eq 24 (-2) 16767376 (by norm_num) (by norm_num) (by norm_num)
      (by norm_num) (by norm_num)]
    norm_num
  unfold inputVoltOf
  rw [show ((426 : ℕ) : ℚ) = 426 by norm_num, hA, toDouble_six_fifths, hP, toDouble_1023, hQ, hF]

/-- The `float` stored for code 427 is the binary32 number 0.5008797645568848. -/
theorem inputVoltOf_427 : inputVoltOf 427 = 8403368 / 2 ^ 24 := by
  have hA : toDouble 427 = 427 := by
    rw [toDouble, fpRound_eq 53 8 7511863440965632 (by norm_num) (by norm_num) (by norm_num)
      (by norm_num) (by norm_num)]
    norm_num
  have hP : toDouble (427 * (5404319552844595 / 2 ^ 52)) = 4507118064579379 / 2 ^ 43 := by
    rw [toDouble, fpRound_eq 53 9 4507118064579379 (by norm_num) (by norm_num) (by norm_num)
      (by norm_num) (by norm_num)]
    norm_num
  have hQ : toDouble (4507118064579379 / 2 ^ 43 / 1023) = 4511523849588743 / 2 ^ 53 := by
    rw [toDouble, fpRound_eq 53 (-1) 4511523849588743 (by norm_num) (by norm_num) (by norm_num)
      (by norm_num) (by norm_num)]
    norm_num
  have hF : toFloat (4511523849588743 / 2 ^ 53) = 8403368 / 2 ^ 24 := by
    rw [toFloat, fpRound_eq 24 (-1) 8403368 (by norm_num) (by norm_num) (by norm_num)
      (by norm_num) (by norm_num)]
    norm_num
  unfold inputVoltOf
  rw [show ((427 : ℕ) : ℚ) = 427 by norm_num, hA, toDouble_six_fifths, hP, toDouble_1023, hQ, hF]

/-! ### Interrupt windows and actions -/

theorem hw_append (a b : List Event) : hw (a ++ b) = hw a ++ hw b := by
  simp [hw]

@[simp] theorem hw_buttonHandler (s : State) : hw (buttonHandler s).trace = hw s.trace := by
  simp [buttonHandler, handlerOutput, hw, Event.isConsole]

@[simp] theorem poll_adc_val (env : Env) (s : State) : (poll env s).adc_val = s.adc_val := by
  unfold poll buttonHandler; split_ifs <;> rfl

@[simp] theorem poll_inputVolt (env : Env) (s : State) : (poll env s).inputVolt = s.inputVolt := by
  unfold poll buttonHandler; split_ifs <;> rfl

@[simp] theorem poll_irqEnabled (env : Env) (s : State) :
    (poll env s).irqEnabled = s.irqEnabled := by
  unfold poll buttonHandler; split_ifs <;> rfl

@[simp] theorem poll_time (env : Env) (s : State) : (poll env s).time = s.time + 1 := by
  unfold poll buttonHandler; split_ifs <;> rfl

@[simp] theorem poll_nAdc (env : Env) (s : State) : (poll env s).nAdc = s.nAdc := by
  unfold poll buttonHandler; split_ifs <;> rfl

@[simp] theorem poll_nPin (env : Env) (s : State) : (poll env s).nPin = s.nPin := by
  unfold poll buttonHandler; split_ifs <;> rfl

@[simp] theorem poll_nUart (env : Env) (s : State) : (poll env s).nUart = s.nUart := by
  unfold poll buttonHandler; split_ifs <;> rfl

@[simp] theorem hw_poll (env : Env) (s : State) : hw (poll env s).trace = hw s.trace := by
  unfold poll; split_ifs
  · exact hw_buttonHandler s
  · rfl

@[simp] theorem emit_adc_val (env : Env) (e : Event) (s : State) :
    (emit env e s).adc_val = s.adc_val := by simp [emit]

@[simp] theorem emit_inputVolt (env : Env) (e : Event) (s : State) :
    (emit env e s).inputVolt = s.inputVolt := by simp [emit]

@[simp] theorem emit_irqEnabled (env : Env) (e : Event) (s : State) :
    (emit env e s).irqEnabled = s.irqEnabled := by simp [emit]

@[simp] theorem emit_time (env : Env) (e : Event) (s : State) :
    (emit env e s).time = s.time + 1 := by simp [emit]

@[simp] theorem emit_nAdc (env : Env) (e : Event) (s : State) :
    (emit env e s).nAdc = s.nAdc := by simp [emit]

@[simp] theorem emit_nPin (env : Env) (e : Event) (s : State) :
    (emit env e s).nPin = s.nPin := by simp [emit]

@[simp] theorem emit_nUart (env : Env) (e : Event) (s : State) :
    (emit env e s).nUart = s.nUart := by simp [emit]

theorem hw_emit (env : Env) (e : Event) (s : State) :
    hw (emit env e s).trace = hw s.trace ++ hw [e] := by
  simp [emit, hw_append]

@[simp] theorem hw_emit_console (env : Env) (e : Event) (s : State) (he : e.isConsole = true) :
    hw (emit env e s).trace = hw s.trace := by
  rw [hw_emit]; simp [hw, he]

@[simp] theorem hw_emit_action (env : Env) (e : Event) (s : State) (he : e.isConsole = false) :
    hw (emit env e s).trace = hw s.trace ++ [e] := by
  rw [hw_emit]; simp [hw, he]

/-! ### Draining the serial output -/

theorem uartPolls_succ (env : Env) (n k : ℕ) :
    uartPolls env n (k + 1)
      = Event.MXC_UART_ReadyForSleep (env.uart n) :: uartPolls env (n + 1) k := by
  simp only [uartPolls, List.range_succ_eq_map, List.map_cons, List.map_map, Nat.add_zero]
  congr 1
  apply List.map_congr_left
  intro j _
  simp only [Function.comp, Nat.succ_eq_add_one]
  congr 2
  omega

/-- When the UART reports busy `k` times and then ready, the drain loop ends
after `k + 1` calls, with any bound above `k`; it changes nothing but the
trace, the clock, the flag and the count of calls. -/
theorem uartDrain_ready (env : Env) (k : ℕ) : ∀ (s : State) (fuel : ℕ),
    (∀ j < k, env.uart (s.nUart + j) ≠ env.E_NO_ERROR) →
    env.uart (s.nUart + k) = env.E_NO_ERROR → k < fuel →
    ∃ s', uartDrain env fuel s = .done s' ∧
      hw s'.trace = hw s.trace ++ uartPolls env s.nUart k
        ++ [Event.MXC_UART_ReadyForSleep env.E_NO_ERROR] ∧
      s'.nUart = s.nUart + k + 1 ∧ s'.time = s.time + k + 1 ∧
      s'.adc_val = s.adc_val ∧ s'.inputVolt = s.inputVolt ∧ s'.nAdc = s.nAdc ∧
      s'.nPin = s.nPin ∧ s'.irqEnabled = s.irqEnabled := by
  induction k with
  | zero =>
    intro s fuel _ hready hfuel
    obtain ⟨f, rfl⟩ : ∃ f, fuel = f + 1 := ⟨fuel - 1, by omega⟩
    simp only [Nat.add_zero] at hready
    refine ⟨{ emit env (.MXC_UART_ReadyForSleep (env.uart s.nUart)) s with
              nUart := s.nUart + 1 }, ?_, ?_⟩
    · rw [uartDrain]; simp only [hready, ne_eq, not_true_eq_false, if_false]
    · simp [uartPolls, Event.isConsole, hready]
  | succ k ih =>
    intro s fuel hbusy hready hfuel
    obtain ⟨f, rfl⟩ : ∃ f, fuel = f + 1 := ⟨fuel - 1, by omega⟩
    have h0 : env.uart s.nUart ≠ env.E_NO_ERROR := by simpa using hbusy 0 (by omega)
    set s1 : State :=
      { emit env (.MXC_UART_ReadyForSleep (env.uart s.nUart)) s with nUart := s.nUart + 1 }
      with hs1
    have hn : s1.nUart = s.nUart + 1 := rfl
    obtain ⟨s', hrun, htr, hnu, htime, h1, h2, h3, h4, h5⟩ := ih s1 f
      (by
        intro j hj
        rw [hn]
        have := hbusy (j + 1) (by omega)
        rwa [show s.nUart + 1 + j = s.nUart + (j + 1) by omega])
      (by rw [hn]; rwa [show s.nUart + 1 + k = s.nUart + (k + 1) by omega])
      (by omega)
    refine ⟨s', ?_, ?_, ?_, ?_, ?_, ?_, ?_, ?_, ?_⟩
    · rw [uartDrain]; simp only [ne_eq, h0, not_false_eq_true, if_true]; exact hrun
    · rw [htr, uartPolls_succ, hn]
      simp [hs1, Event.isConsole]
    · rw [hnu, hn]; omega
    · rw [htime]; simp [hs1]; omega
    · rw [h1]; simp [hs1]
    · rw [h2]; simp [hs1]
    · rw [h3]; simp [hs1]
    · rw [h4]; simp [hs1]
    · rw [h5]; simp [hs1]

/-! ### One iteration of the sampling loop -/

theorem hw_readAdc (env : Env) (s : State) :
    hw (readAdc env s).trace = hw s.trace ++ [Event.MXC_ADC_StartConversion (env.adc s.nAdc)] := by
  simp [readAdc, Event.isConsole]

@[simp] theorem readAdc_inputVolt (env : Env) (s : State) :
    (readAdc env s).inputVolt = inputVoltOf (toUInt32 (env.adc s.nAdc)) := by
  simp [readAdc]

@[simp] theorem readAdc_adc_val (env : Env) (s : State) :
    (readAdc env s).adc_val = toUInt32 (env.adc s.nAdc) := by
  simp [readAdc]

@[simp] theorem readAdc_nPin (env : Env) (s : State) : (readAdc env s).nPin = s.nPin := by
  simp [readAdc]

@[simp] theorem readAdc_nUart (env : Env) (s : State) : (readAdc env s).nUart = s.nUart := by
  simp [readAdc]

@[simp] theorem readAdc_nAdc (env : Env) (s : State) : (readAdc env s).nAdc = s.nAdc + 1 := by
  simp [readAdc]

/-- The soft-reset branch, when the UART reports busy `k` times and then ready. -/
theorem softReset_ready (env : Env) (k : ℕ) (s : State) (fuel : ℕ)
    (hbusy : ∀ j < k, env.uart (s.nUart + j) ≠ env.E_NO_ERROR)
    (hready : env.uart (s.nUart + k) = env.E_NO_ERROR) (hfuel : k < fuel) :
    ∃ s', softReset env fuel s = .reset s' ∧
      hw s'.trace = hw s.trace ++ uartPolls env s.nUart k
        ++ [Event.MXC_UART_ReadyForSleep env.E_NO_ERROR, Event.NVIC_SystemReset] := by
  obtain ⟨s1, hrun, htr, -⟩ := uartDrain_ready env k (emit env (.printf .softReset) s) fuel
    (by simpa using hbusy) (by simpa using hready) hfuel
  refine ⟨emit env .NVIC_SystemReset s1, ?_, ?_⟩
  · simp [softReset, NVIC_SystemReset, hrun, Outcome.andThen]
  · simp [htr, Event.isConsole]

/-- The sleep branch, when the UART reports busy `k` times and then ready. -/
theorem enterSleep_ready (env : Env) (k : ℕ) (s : State) (fuel : ℕ)
    (hbusy : ∀ j < k, env.uart (s.nUart + j) ≠ env.E_NO_ERROR)
    (hready : env.uart (s.nUart + k) = env.E_NO_ERROR) (hfuel : k < fuel) :
    ∃ s', enterSleep env fuel s = .done s' ∧
      hw s'.trace = hw s.trace ++ [Event.MXC_GPIO_OutClr Normal_PIN_output]
        ++ uartPolls env s.nUart k
        ++ [Event.MXC_UART_ReadyForSleep env.E_NO_ERROR, Event.MXC_LP_EnterLowPowerMode] := by
  obtain ⟨s1, hrun, htr, -⟩ := uartDrain_ready env k
    (emit env (.printf .sleepMode) (emit env (.printf .lowBattery)
      (emit env (.MXC_GPIO_OutClr Normal_PIN_output) s))) fuel
    (by simpa using hbusy) (by simpa using hready) hfuel
  refine ⟨emit env .MXC_LP_EnterLowPowerMode s1, ?_, ?_⟩
  · simp [enterSleep, MXC_LP_EnterLowPowerMode, hrun, Outcome.andThen]
  · simp [htr, Event.isConsole]

theorem hw_readPin (env : Env) (s : State) :
    hw (readPin env s).trace
      = hw s.trace ++ [Event.MXC_GPIO_InGet Normal_PIN_input (env.pin s.nPin)] := by
  simp [readPin, Event.isConsole]

@[simp] theorem readPin_inputVolt (env : Env) (s : State) :
    (readPin env s).inputVolt = s.inputVolt := by
  simp [readPin]

@[simp] theorem readPin_adc_val (env : Env) (s : State) :
    (readPin env s).adc_val = s.adc_val := by
  simp [readPin]

@[simp] theorem readPin_nUart (env : Env) (s : State) : (readPin env s).nUart = s.nUart := by
  simp [readPin]

/-- The soft-reset branch never hands control on. -/
theorem softReset_andThen (env : Env) (fuel : ℕ) (s : State) (k : State → Outcome) :
    (softReset env fuel s).andThen k = softReset env fuel s := by
  unfold softReset
  cases uartDrain env fuel (emit env (.printf .softReset) s) <;> rfl

/-- An iteration in which the reset pin reads low is the soft-reset branch. -/
theorem loopBody_low (env : Env) (fuel : ℕ) (s : State) (hpin : env.pin s.nPin = 0) :
    loopBody env fuel s = softReset env fuel (readPin env (readAdc env s)) := by
  simp only [loopBody, readAdc_nPin, if_pos hpin, softReset_andThen]

/-- An iteration in which the reset pin reads high branches on the voltage. -/
theorem loopBody_high (env : Env) (fuel : ℕ) (s : State) (hpin : env.pin s.nPin ≠ 0) :
    loopBody env fuel s =
      (if inputVoltOf (toUInt32 (env.adc s.nAdc)) ≤ 1 / 2
        then enterSleep env fuel (readPin env (readAdc env s))
        else .done (emit env (.MXC_GPIO_OutSet Normal_PIN_output)
          (readPin env (readAdc env s)))).andThen fun s =>
      .done (emit env (.MXC_TMR_Delay (MSEC 250)) s) := by
  simp only [loopBody, readAdc_nPin, if_neg hpin, Outcome.andThen, readPin_inputVolt,
    readAdc_inputVolt]

/-- Whatever the UART answers, the drain loop does nothing to the hardware but
call `MXC_UART_ReadyForSleep`, and it either ends or is still in the loop. -/
theorem uartDrain_progress (env : Env) : ∀ (fuel : ℕ) (s : State),
    ∃ j s', j ≤ fuel ∧
      (uartDrain env fuel s = .done s' ∨ uartDrain env fuel s = .running .uartDrain s') ∧
      hw s'.trace = hw s.trace ++ uartPolls env s.nUart j := by
  intro fuel
  induction fuel with
  | zero => intro s; exact ⟨0, s, le_refl _, Or.inr rfl, by simp [uartPolls]⟩
  | succ f ih =>
    intro s
    set s1 : State :=
      { emit env (.MXC_UART_ReadyForSleep (env.uart s.nUart)) s with nUart := s.nUart + 1 }
      with hs1
    have hn : s1.nUart = s.nUart + 1 := rfl
    have htr1 : hw s1.trace
        = hw s.trace ++ [Event.MXC_UART_ReadyForSleep (env.uart s.nUart)] :=
      hw_emit_action env (.MXC_UART_ReadyForSleep (env.uart s.nUart)) s rfl
    by_cases hr : env.uart s.nUart = env.E_NO_ERROR
    · refine ⟨1, s1, by omega, Or.inl ?_, ?_⟩
      · rw [uartDrain]; simp only [hr, ne_eq, not_true_eq_false, if_false]; rw [← hr]
      · rw [htr1, uartPolls_succ]; simp [uartPolls]
    · obtain ⟨j, s', hj, hrun, htr⟩ := ih s1
      refine ⟨j + 1, s', by omega, ?_, ?_⟩
      · rw [uartDrain]; simp only [ne_eq, hr, not_false_eq_true, if_true]; exact hrun
      · rw [htr, uartPolls_succ, hn, htr1]
        simp

/-- Whatever the UART answers, the soft-reset branch calls the UART and then
either resets or is still draining. -/
theorem softReset_progress (env : Env) (fuel : ℕ) (s : State) :
    ∃ j s' tail, j ≤ fuel ∧
      hw s'.trace = hw s.trace ++ uartPolls env s.nUart j ++ tail ∧
      ((softReset env fuel s = .reset s' ∧ tail = [Event.NVIC_SystemReset]) ∨
       (softReset env fuel s = .running .uartDrain s' ∧ tail = [])) := by
  obtain ⟨j, s₁, hj, hrun, htr⟩ := uartDrain_progress env fuel (emit env (.printf .softReset) s)
  rw [hw_emit_console env (.printf .softReset) s rfl, emit_nUart] at htr
  rcases hrun with hrun | hrun
  · refine ⟨j, emit env .NVIC_SystemReset s₁, [Event.NVIC_SystemReset], hj, ?_, Or.inl ⟨?_, rfl⟩⟩
    · rw [hw_emit_action env .NVIC_SystemReset s₁ rfl, htr]
    · simp [softReset, NVIC_SystemReset, hrun, Outcome.andThen]
  · refine ⟨j, s₁, [], hj, by rw [htr]; simp, Or.inr ⟨?_, rfl⟩⟩
    simp [softReset, NVIC_SystemReset, hrun, Outcome.andThen]

/-- Whatever the UART answers, the sleep branch turns the LED on, calls the
UART and then either enters low-power mode or is still draining. -/
theorem enterSleep_progress (env : Env) (fuel : ℕ) (s : State) :
    ∃ j s' tail, j ≤ fuel ∧
      hw s'.trace = hw s.trace ++ [Event.MXC_GPIO_OutClr Normal_PIN_output]
        ++ uartPolls env s.nUart j ++ tail ∧
      ((enterSleep env fuel s = .done s' ∧ tail = [Event.MXC_LP_EnterLowPowerMode]) ∨
       (enterSleep env fuel s = .running .uartDrain s' ∧ tail = [])) := by
  obtain ⟨j, s₁, hj, hrun, htr⟩ := uartDrain_progress env fuel
    (emit env (.printf .sleepMode) (emit env (.printf .lowBattery)
      (emit env (.MXC_GPIO_OutClr Normal_PIN_output) s)))
  rw [hw_emit_console env (.printf .sleepMode) _ rfl,
    hw_emit_console env (.printf .lowBattery) _ rfl,
    hw_emit_action env (.MXC_GPIO_OutClr Normal_PIN_output) s rfl] at htr
  simp only [emit_nUart] at htr
  rcases hrun with hrun | hrun
  · refine ⟨j, emit env .MXC_LP_EnterLowPowerMode s₁, [Event.MXC_LP_EnterLowPowerMode], hj, ?_,
      Or.inl ⟨?_, rfl⟩⟩
    · rw [hw_emit_action env .MXC_LP_EnterLowPowerMode s₁ rfl, htr]
    · simp [enterSleep, MXC_LP_EnterLowPowerMode, hrun, Outcome.andThen]
  · refine ⟨j, s₁, [], hj, by rw [htr]; simp, Or.inr ⟨?_, rfl⟩⟩
    simp [enterSleep, MXC_LP_EnterLowPowerMode, hrun, Outcome.andThen]

/-- With the reset pin high, the hardware action after the read of the pin is
`MXC_GPIO_OutClr` for the codes up to 426 and `MXC_GPIO_OutSet` for the others. -/
theorem loopBody_branch (env : Env) (fuel : ℕ) (s : State) (hpin : env.pin s.nPin ≠ 0) :
    ∃ rest, hw (loopBody env fuel s).state.trace = hw s.trace ++
      [Event.MXC_ADC_StartConversion (env.adc s.nAdc),
       Event.MXC_GPIO_InGet Normal_PIN_input (env.pin s.nPin),
       if toUInt32 (env.adc s.nAdc) ≤ 426 then Event.MXC_GPIO_OutClr Normal_PIN_output
       else Event.MXC_GPIO_OutSet Normal_PIN_output] ++ rest := by
  rw [loopBody_high env fuel s hpin]
  by_cases h426 : toUInt32 (env.adc s.nAdc) ≤ 426
  · rw [if_pos ((inputVoltOf_le_half_iff _).2 h426), if_pos h426]
    obtain ⟨j, s', tail, -, htr, hrun | hrun⟩ :=
      enterSleep_progress env fuel (readPin env (readAdc env s))
    · refine ⟨uartPolls env s.nUart j ++ tail ++ [Event.MXC_TMR_Delay (MSEC 250)], ?_⟩
      rw [hrun.1]
      show hw (emit env (.MXC_TMR_Delay (MSEC 250)) s').trace = _
      rw [hw_emit_action env (.MXC_TMR_Delay (MSEC 250)) s' rfl, htr, hw_readPin, hw_readAdc]
      simp
    · refine ⟨uartPolls env s.nUart j ++ tail, ?_⟩
      rw [hrun.1]
      show hw s'.trace = _
      rw [htr, hw_readPin, hw_readAdc]
      simp
  · rw [if_neg (mt (inputVoltOf_le_half_iff _).1 h426), if_neg h426]
    refine ⟨[Event.MXC_TMR_Delay (MSEC 250)], ?_⟩
    show hw (emit env (.MXC_TMR_Delay (MSEC 250))
      (emit env (.MXC_GPIO_OutSet Normal_PIN_output) (readPin env (readAdc env s)))).trace = _
    rw [hw_emit_action env (.MXC_TMR_Delay (MSEC 250)) _ rfl,
      hw_emit_action env (.MXC_GPIO_OutSet Normal_PIN_output) _ rfl, hw_readPin, hw_readAdc]
    simp

/-! ### Growth of the trace -/

theorem hw_handlerOutput : hw handlerOutput = [] := by
  simp [handlerOutput, hw, Event.isConsole]

theorem isConsole_of_mem_handlerOutput {e : Event} (he : e ∈ handlerOutput) :
    e.isConsole = true := by
  simp only [handlerOutput, List.mem_cons, List.mem_singleton, List.not_mem_nil, or_false] at he
  rcases he with rfl | rfl | rfl <;> rfl

theorem poll_trace (env : Env) (s : State) :
    (poll env s).trace
      = s.trace ++ (if (s.irqEnabled && env.irq s.time) = true then handlerOutput else []) := by
  unfold poll buttonHandler
  split_ifs <;> simp

theorem emit_trace (env : Env) (e : Event) (s : State) :
    (emit env e s).trace = (poll env s).trace ++ [e] := rfl

theorem Ext.none (P : Event → Prop) (s : State) : Ext P s s :=
  ⟨[], by simp, by simp⟩

theorem Ext.append {P : Event → Prop} {s₁ s₂ s₃ : State} (h₁ : Ext P s₁ s₂) (h₂ : Ext P s₂ s₃) :
    Ext P s₁ s₃ := by
  obtain ⟨l₁, e₁, p₁⟩ := h₁
  obtain ⟨l₂, e₂, p₂⟩ := h₂
  refine ⟨l₁ ++ l₂, by rw [e₂, e₁, List.append_assoc], ?_⟩
  intro e he
  rcases List.mem_append.1 he with h | h
  · exact p₁ e h
  · exact p₂ e h

theorem Ext.of_trace_eq {P : Event → Prop} {s s' : State} (h : s'.trace = s.trace) :
    Ext P s s' :=
  ⟨[], by simp [h], by simp⟩

theorem Ext.mono {P Q : Event → Prop} {s s' : State} (h : Ext P s s')
    (hPQ : ∀ e, P e → Q e) : Ext Q s s' := by
  obtain ⟨l, e, p⟩ := h
  exact ⟨l, e, fun x hx => hPQ x (p x hx)⟩

theorem ext_hw {P : Event → Prop} {s s' : State} (h : Ext P s s') :
    ∃ l, hw s'.trace = hw s.trace ++ l := by
  obtain ⟨l, e, -⟩ := h
  exact ⟨hw l, by rw [e, hw_append]⟩

theorem ext_poll {P : Event → Prop} (hC : ∀ e, e.isConsole = true → P e) (env : Env)
    (s : State) : Ext P s (poll env s) := by
  refine ⟨_, poll_trace env s, ?_⟩
  intro e he
  split_ifs at he
  · exact hC e (isConsole_of_mem_handlerOutput he)
  · simp at he

theorem ext_emit {P : Event → Prop} (hC : ∀ e, e.isConsole = true → P e) (env : Env)
    (e : Event) (he : P e) (s : State) : Ext P s (emit env e s) := by
  refine (ext_poll hC env s).append ⟨[e], emit_trace env e s, ?_⟩
  intro x hx
  rw [List.mem_singleton] at hx
  exact hx ▸ he

theorem ext_uartDrain {P : Event → Prop} (hC : ∀ e, e.isConsole = true → P e)
    (hU : ∀ r, P (Event.MXC_UART_ReadyForSleep r)) (env : Env) :
    ∀ (fuel : ℕ) (s : State), Ext P s (uartDrain env fuel s).state := by
  intro fuel
  induction fuel with
  | zero => intro s; exact Ext.none P s
  | succ f ih =>
    intro s
    have h1 : Ext P s
        { emit env (.MXC_UART_ReadyForSleep (env.uart s.nUart)) s with nUart := s.nUart + 1 } :=
      (ext_emit hC env _ (hU _) s).append (Ext.of_trace_eq rfl)
    rw [uartDrain]
    simp only
    split_ifs
    · exact h1.append (ih _)
    · exact h1

theorem ext_waitTrigger {P : Event → Prop} (hC : ∀ e, e.isConsole = true → P e) (env : Env) :
    ∀ (fuel : ℕ) (s : State), Ext P s (waitTrigger env fuel s).state := by
  intro fuel
  induction fuel with
  | zero => intro s; exact Ext.none P s
  | succ f ih =>
    intro s
    rw [waitTrigger]
    split_ifs
    · exact (ext_poll hC env s).append (ih _)
    · exact ext_poll hC env s

theorem debounce_of_lt (env : Env) (tmp : ℕ) (s : State) (h : tmp < debounceCount) :
    debounce env tmp s = debounce env (tmp + 1) (emit env .NOP s) := by
  rw [debounce, if_pos h]

theorem debounce_of_ge (env : Env) (tmp : ℕ) (s : State) (h : debounceCount ≤ tmp) :
    debounce env tmp s = s := by
  rw [debounce, if_neg (by omega)]

/-- Induction along the debounce loop: a relation between states that holds
across one `__NOP()` and composes holds across the rest of the loop. -/
theorem debounce_induction (env : Env) (R : State → State → Prop)
    (hrefl : ∀ s, R s s) (htrans : ∀ s₁ s₂ s₃, R s₁ s₂ → R s₂ s₃ → R s₁ s₃)
    (hstep : ∀ s, R s (emit env .NOP s)) :
    ∀ (n tmp : ℕ) (s : State), debounceCount - tmp = n → R s (debounce env tmp s) := by
  intro n
  induction n with
  | zero =>
    intro tmp s h
    rw [debounce_of_ge env tmp s (by omega)]
    exact hrefl s
  | succ n ih =>
    intro tmp s h
    rw [debounce_of_lt env tmp s (by omega)]
    exact htrans _ _ _ (hstep s) (ih (tmp + 1) _ (by omega))

theorem ext_debounce {P : Event → Prop} (hC : ∀ e, e.isConsole = true → P e)
    (hN : P Event.NOP) (env : Env) (tmp : ℕ) (s : State) : Ext P s (debounce env tmp s) :=
  debounce_induction env (Ext P) (Ext.none P) (fun _ _ _ h₁ h₂ => h₁.append h₂)
    (fun s => ext_emit hC env _ hN s) _ tmp s rfl

theorem ext_andThen {P : Event → Prop} {s : State} {o : Outcome} {k : State → Outcome}
    (h₁ : Ext P s o.state) (h₂ : ∀ s₁, o = .done s₁ → Ext P s₁ (k s₁).state) :
    Ext P s (o.andThen k).state := by
  cases o with
  | done s₁ => exact h₁.append (h₂ s₁ rfl)
  | reset s₁ => exact h₁
  | running l s₁ => exact h₁

theorem ext_setTrigger {P : Event → Prop} (hC : ∀ e, e.isConsole = true → P e)
    (hU : ∀ r, P (Event.MXC_UART_ReadyForSleep r)) (hN : P Event.NOP) (env : Env)
    (fuel : ℕ) (w : ℤ) (s : State) : Ext P s (setTrigger env fuel w s).state := by
  unfold setTrigger
  simp only
  apply ext_andThen
  · split_ifs
    · exact (Ext.of_trace_eq rfl).append (ext_waitTrigger hC env fuel _)
    · exact Ext.of_trace_eq rfl
  · intro s₁ _
    exact (ext_debounce hC hN env 0 s₁).append (ext_uartDrain hC hU env fuel _)

/-! ### The flag -/

theorem Latch.stay (env : Env) (s : State) : Latch env s s := by
  refine ⟨rfl, le_refl _, ?_, fun _ => rfl⟩
  rintro ⟨-, t, h₁, h₂, -⟩
  omega

theorem Latch.seq {env : Env} {s₁ s₂ s₃ : State} (h₁ : Latch env s₁ s₂)
    (h₂ : Latch env s₂ s₃) : Latch env s₁ s₃ := by
  obtain ⟨e₁, t₁, p₁, n₁⟩ := h₁
  obtain ⟨e₂, t₂, p₂, n₂⟩ := h₂
  refine ⟨e₂.trans e₁, le_trans t₁ t₂, ?_, ?_⟩
  · rintro ⟨hen, t, ht₁, ht₂, hirq⟩
    by_cases hlate : Pressed env s₂ s₃
    · exact p₂ hlate
    · rw [n₂ hlate]
      apply p₁
      refine ⟨hen, t, ht₁, ?_, hirq⟩
      by_contra hge
      exact hlate ⟨e₁.trans hen, t, not_lt.mp hge, ht₂, hirq⟩
  · intro hnot
    have hn₁ : ¬ Pressed env s₁ s₂ := by
      rintro ⟨hen, t, ht₁, ht₂, hirq⟩
      exact hnot ⟨hen, t, ht₁, lt_of_lt_of_le ht₂ t₂, hirq⟩
    have hn₂ : ¬ Pressed env s₂ s₃ := by
      rintro ⟨hen, t, ht₁, ht₂, hirq⟩
      exact hnot ⟨e₁ ▸ hen, t, le_trans t₁ ht₁, ht₂, hirq⟩
    rw [n₂ hn₂, n₁ hn₁]

theorem Latch.of_eq {env : Env} {s s' : State} (h₁ : s'.irqEnabled = s.irqEnabled)
    (h₂ : s'.time = s.time) (h₃ : s'.buttonPressed = s.buttonPressed) : Latch env s s' := by
  refine ⟨h₁, h₂ ▸ le_refl _, ?_, fun _ => h₃⟩
  rintro ⟨-, t, ht₁, ht₂, -⟩
  omega

theorem poll_buttonPressed (env : Env) (s : State) :
    (poll env s).buttonPressed
      = if (s.irqEnabled && env.irq s.time) = true then 1 else s.buttonPressed := by
  unfold poll buttonHandler
  split_ifs <;> rfl

theorem latch_poll (env : Env) (s : State) : Latch env s (poll env s) := by
  refine ⟨poll_irqEnabled env s, by simp, ?_, ?_⟩
  · rintro ⟨hen, t, ht₁, ht₂, hirq⟩
    have ht : t = s.time := by simp at ht₂; omega
    subst ht
    rw [poll_buttonPressed, if_pos (by simp [hen, hirq])]
  · intro hnot
    rw [poll_buttonPressed, if_neg]
    intro h
    rw [Bool.and_eq_true] at h
    exact hnot ⟨h.1, s.time, le_refl _, by simp, h.2⟩

theorem latch_emit (env : Env) (e : Event) (s : State) : Latch env s (emit env e s) :=
  (latch_poll env s).seq (Latch.of_eq rfl rfl rfl)

theorem latch_uartDrain (env : Env) :
    ∀ (fuel : ℕ) (s : State), Latch env s (uartDrain env fuel s).state := by
  intro fuel
  induction fuel with
  | zero => intro s; exact Latch.stay env s
  | succ f ih =>
    intro s
    have h1 : Latch env s
        { emit env (.MXC_UART_ReadyForSleep (env.uart s.nUart)) s with nUart := s.nUart + 1 } :=
      (latch_emit env (.MXC_UART_ReadyForSleep (env.uart s.nUart)) s).seq
        (Latch.of_eq rfl rfl rfl)
    rw [uartDrain]
    simp only
    split_ifs
    · exact h1.seq (ih _)
    · exact h1

theorem latch_waitTrigger (env : Env) :
    ∀ (fuel : ℕ) (s : State), Latch env s (waitTrigger env fuel s).state := by
  intro fuel
  induction fuel with
  | zero => intro s; exact Latch.stay env s
  | succ f ih =>
    intro s
    rw [waitTrigger]
    split_ifs
    · exact (latch_poll env s).seq (ih _)
    · exact latch_poll env s

theorem latch_debounce (env : Env) (tmp : ℕ) (s : State) : Latch env s (debounce env tmp s) :=
  debounce_induction env (Latch env) (Latch.stay env) (fun _ _ _ h₁ h₂ => h₁.seq h₂)
    (fun s => latch_emit env _ s) _ tmp s rfl

/-- The wait loop is left only with the flag set. -/
theorem waitTrigger_done_flag (env : Env) :
    ∀ (fuel : ℕ) (s s' : State), waitTrigger env fuel s = .done s' → s'.buttonPressed ≠ 0 := by
  intro fuel
  induction fuel with
  | zero => intro s s' h; simp [waitTrigger] at h
  | succ f ih =>
    intro s s' h
    rw [waitTrigger] at h
    split_ifs at h with h0
    · exact ih _ _ h
    · injection h with h
      exact h ▸ h0

/-! ### The parts of `setTrigger` -/

theorem debounce_nUart (env : Env) (tmp : ℕ) (s : State) :
    (debounce env tmp s).nUart = s.nUart :=
  debounce_induction env (fun s s' => s'.nUart = s.nUart) (fun _ => rfl)
    (fun _ _ _ h₁ h₂ => h₂.trans h₁) (fun s => emit_nUart env _ s) _ tmp s rfl

/-- The debounce loop does `debounceCount - tmp` times `__NOP()` and nothing
else to the hardware, whatever interrupts arrive. -/
theorem hw_debounce (env : Env) :
    ∀ (n tmp : ℕ) (s : State), debounceCount - tmp = n →
      hw (debounce env tmp s).trace = hw s.trace ++ List.replicate n Event.NOP := by
  intro n
  induction n with
  | zero =>
    intro tmp s h
    rw [debounce_of_ge env tmp s (by omega)]
    simp
  | succ n ih =>
    intro tmp s h
    rw [debounce_of_lt env tmp s (by omega), ih (tmp + 1) _ (by omega),
      hw_emit_action env .NOP s rfl, List.replicate_succ]
    simp

/-- The wait loop ends at the first interrupt window in which the button is
pressed; the handler has then run once. -/
theorem waitTrigger_fires (env : Env) (m : ℕ) : ∀ (s : State) (fuel : ℕ),
    s.irqEnabled = true → s.buttonPressed = 0 →
    (∀ j < m, env.irq (s.time + j) = false) → env.irq (s.time + m) = true → m < fuel →
    ∃ s', waitTrigger env fuel s = .done s' ∧ s'.trace = s.trace ++ handlerOutput ∧
      s'.nUart = s.nUart ∧ s'.buttonPressed = 1 := by
  induction m with
  | zero =>
    intro s fuel hen _ _ hirq hfuel
    obtain ⟨f, rfl⟩ : ∃ f, fuel = f + 1 := ⟨fuel - 1, by omega⟩
    rw [Nat.add_zero] at hirq
    have hb : (poll env s).buttonPressed = 1 := by
      rw [poll_buttonPressed, if_pos (by simp [hen, hirq])]
    refine ⟨poll env s, ?_, ?_, poll_nUart env s, hb⟩
    · rw [waitTrigger, if_neg (by rw [hb]; norm_num)]
    · rw [poll_trace, if_pos (by simp [hen, hirq])]
  | succ m ih =>
    intro s fuel hen hflag hquiet hirq hfuel
    obtain ⟨f, rfl⟩ : ∃ f, fuel = f + 1 := ⟨fuel - 1, by omega⟩
    have h0 : env.irq s.time = false := by simpa using hquiet 0 (by omega)
    have hb : (poll env s).buttonPressed = 0 := by
      rw [poll_buttonPressed, if_neg (by simp [h0]), hflag]
    have htr : (poll env s).trace = s.trace := by
      rw [poll_trace, if_neg (by simp [h0])]; simp
    obtain ⟨s', hrun, htr', hn, hb'⟩ := ih (poll env s) f (by simp [hen]) hb
      (by
        intro j hj
        have := hquiet (j + 1) (by omega)
        rwa [poll_time, show s.time + 1 + j = s.time + (j + 1) by omega])
      (by rwa [poll_time, show s.time + 1 + m = s.time + (m + 1) by omega])
      (by omega)
    refine ⟨s', ?_, ?_, ?_, hb'⟩
    · rw [waitTrigger, if_pos hb]; exact hrun
    · rw [htr', htr]
    · rw [hn, poll_nUart]

/-- While the button is not pressed the wait loop does not end, and does
nothing. -/
theorem waitTrigger_blocks (env : Env) : ∀ (fuel : ℕ) (s : State),
    s.buttonPressed = 0 → (∀ t, s.time ≤ t → (s.irqEnabled && env.irq t) = false) →
    ∃ s', waitTrigger env fuel s = .running .waitTrigger s' ∧ s'.trace = s.trace := by
  intro fuel
  induction fuel with
  | zero => intro s _ _; exact ⟨s, rfl, rfl⟩
  | succ f ih =>
    intro s hflag hquiet
    have h0 := hquiet s.time (le_refl _)
    have hb : (poll env s).buttonPressed = 0 := by
      rw [poll_buttonPressed, if_neg (by simp [h0]), hflag]
    have htr : (poll env s).trace = s.trace := by
      rw [poll_trace, if_neg (by simp [h0])]; simp
    obtain ⟨s', hrun, htr'⟩ := ih (poll env s) hb (by
      intro t ht
      rw [poll_irqEnabled]
      exact hquiet t (by rw [poll_time] at ht; omega))
    exact ⟨s', by rw [waitTrigger, if_pos hb]; exact hrun, by rw [htr', htr]⟩

/-- When the wait loop ends the handler has run, exactly once. -/
theorem waitTrigger_done_trace (env : Env) : ∀ (fuel : ℕ) (s s' : State),
    waitTrigger env fuel s = .done s' → s.buttonPressed = 0 →
    s'.trace = s.trace ++ handlerOutput ∧ s'.nUart = s.nUart := by
  intro fuel
  induction fuel with
  | zero => intro s s' h; simp [waitTrigger] at h
  | succ f ih =>
    intro s s' h hflag
    rw [waitTrigger] at h
    by_cases hirq : (s.irqEnabled && env.irq s.time) = true
    · have hb : (poll env s).buttonPressed = 1 := by rw [poll_buttonPressed, if_pos hirq]
      rw [if_neg (by rw [hb]; norm_num)] at h
      injection h with h
      subst h
      exact ⟨by rw [poll_trace, if_pos hirq], poll_nUart env s⟩
    · have hb : (poll env s).buttonPressed = 0 := by
        rw [poll_buttonPressed, if_neg hirq, hflag]
      have htr : (poll env s).trace = s.trace := by
        rw [poll_trace, if_neg hirq]; simp
      rw [if_pos hb] at h
      obtain ⟨h₁, h₂⟩ := ih _ _ h hb
      exact ⟨by rw [h₁, htr], by rw [h₂, poll_nUart]⟩

/-- When the drain loop ends, the UART has reported busy some `k` times and
then ready. -/
theorem uartDrain_done (env : Env) : ∀ (fuel : ℕ) (s s' : State),
    uartDrain env fuel s = .done s' →
    ∃ k, k < fuel ∧ (∀ j < k, env.uart (s.nUart + j) ≠ env.E_NO_ERROR) ∧
      env.uart (s.nUart + k) = env.E_NO_ERROR ∧
      hw s'.trace = hw s.trace ++ uartPolls env s.nUart k
        ++ [Event.MXC_UART_ReadyForSleep env.E_NO_ERROR] := by
  have key : ∀ (fuel : ℕ) (s s' : State), uartDrain env fuel s = .done s' →
      ∃ k, k < fuel ∧ (∀ j < k, env.uart (s.nUart + j) ≠ env.E_NO_ERROR) ∧
        env.uart (s.nUart + k) = env.E_NO_ERROR := by
    intro fuel
    induction fuel with
    | zero => intro s s' h; simp [uartDrain] at h
    | succ f ih =>
      intro s s' h
      rw [uartDrain] at h
      simp only at h
      split_ifs at h with hr
      · obtain ⟨k, hk, hbusy, hready⟩ := ih _ _ h
        refine ⟨k + 1, by omega, ?_, ?_⟩
        · intro j hj
          rcases Nat.eq_zero_or_pos j with rfl | hpos
          · simpa using hr
          · have := hbusy (j - 1) (by omega)
            rwa [show s.nUart + 1 + (j - 1) = s.nUart + j by omega] at this
        · rwa [show s.nUart + 1 + k = s.nUart + (k + 1) by omega] at hready
      · exact ⟨0, by omega, by intro j hj; omega, by simpa using hr⟩
  intro fuel s s' h
  obtain ⟨k, hk, hbusy, hready⟩ := key fuel s s' h
  obtain ⟨s'', hrun, htr, -⟩ := uartDrain_ready env k s fuel hbusy hready hk
  rw [h] at hrun
  injection hrun with hrun
  subst hrun
  exact ⟨k, hk, hbusy, hready, htr⟩

/-! ### `setTrigger` as a whole -/

theorem setTrigger_zero (env : Env) (fuel : ℕ) (s : State) :
    setTrigger env fuel 0 s
      = uartDrain env fuel (debounce env 0 { s with buttonPressed := 0 }) := by
  simp [setTrigger, Outcome.andThen]

theorem setTrigger_nonzero (env : Env) (fuel : ℕ) (w : ℤ) (hw0 : w ≠ 0) (s : State) :
    setTrigger env fuel w s
      = (waitTrigger env fuel { s with buttonPressed := 0 }).andThen fun s₁ =>
        uartDrain env fuel (debounce env 0 s₁) := by
  simp [setTrigger, hw0]

/-- The call `setTrigger(w)` returns when the button is pressed (only needed
for non-zero `w`) and the UART gets ready; its hardware actions are the
`__NOP()`s of the debounce loop and the calls to the UART. -/
theorem setTrigger_returns (env : Env) (s : State) (fuel : ℕ) (w : ℤ) (m k : ℕ)
    (hbtn : w ≠ 0 → s.irqEnabled = true ∧ (∀ j < m, env.irq (s.time + j) = false) ∧
      env.irq (s.time + m) = true ∧ m < fuel)
    (hbusy : ∀ j < k, env.uart (s.nUart + j) ≠ env.E_NO_ERROR)
    (hready : env.uart (s.nUart + k) = env.E_NO_ERROR) (hfuel : k < fuel) :
    ∃ s', setTrigger env fuel w s = .done s' ∧
      hw s'.trace = hw s.trace ++ List.replicate debounceCount Event.NOP
        ++ uartPolls env s.nUart k ++ [Event.MXC_UART_ReadyForSleep env.E_NO_ERROR] := by
  by_cases hw0 : w = 0
  · subst hw0
    obtain ⟨s', hrun, htr, -⟩ := uartDrain_ready env k
      (debounce env 0 { s with buttonPressed := 0 }) fuel
      (by rw [debounce_nUart]; exact hbusy) (by rw [debounce_nUart]; exact hready) hfuel
    refine ⟨s', by rw [setTrigger_zero, hrun], ?_⟩
    rw [htr, hw_debounce env debounceCount 0 _ rfl, debounce_nUart]
  · obtain ⟨hen, hquiet, hirq, hm⟩ := hbtn hw0
    obtain ⟨s₁, hrun₁, htr₁, hn₁, -⟩ := waitTrigger_fires env m { s with buttonPressed := 0 } fuel
      hen rfl hquiet hirq hm
    obtain ⟨s', hrun, htr, -⟩ := uartDrain_ready env k (debounce env 0 s₁) fuel
      (by rw [debounce_nUart, hn₁]; exact hbusy) (by rw [debounce_nUart, hn₁]; exact hready)
      hfuel
    refine ⟨s', by rw [setTrigger_nonzero env fuel w hw0, hrun₁]; exact hrun, ?_⟩
    rw [htr, hw_debounce env debounceCount 0 _ rfl, debounce_nUart, hn₁, htr₁, hw_append,
      hw_handlerOutput]
    simp

/-- A hardware trace that grew from `a` determines what it grew by. -/
theorem hw_grown {a l x : List Event} {t : List Event} (ht : t = a ++ l)
    (h : hw t = hw a ++ x) : hw l = x := by
  rw [ht, hw_append] at h
  exact List.append_cancel_left h

/-- What has happened when `setTrigger(w)` returns: for non-zero `w` the
handler has run, then came the `__NOP()`s of the debounce loop, then the calls
to the UART, the last of which returned `E_NO_ERROR`. -/
theorem setTrigger_done (env : Env) (fuel : ℕ) (w : ℤ) (s s' : State)
    (h : setTrigger env fuel w s = .done s') :
    ∃ deb drain k, s'.trace = s.trace ++ (if w ≠ 0 then handlerOutput else []) ++ deb ++ drain ∧
      hw deb = List.replicate debounceCount Event.NOP ∧
      hw drain = uartPolls env s.nUart k ++ [Event.MXC_UART_ReadyForSleep env.E_NO_ERROR] ∧
      k < fuel ∧ (∀ j < k, env.uart (s.nUart + j) ≠ env.E_NO_ERROR) ∧
      env.uart (s.nUart + k) = env.E_NO_ERROR := by
  have tail : ∀ s₁ : State, s₁.nUart = s.nUart →
      uartDrain env fuel (debounce env 0 s₁) = .done s' →
      ∃ deb drain k, s'.trace = s₁.trace ++ deb ++ drain ∧
        hw deb = List.replicate debounceCount Event.NOP ∧
        hw drain = uartPolls env s.nUart k ++ [Event.MXC_UART_ReadyForSleep env.E_NO_ERROR] ∧
        k < fuel ∧ (∀ j < k, env.uart (s.nUart + j) ≠ env.E_NO_ERROR) ∧
        env.uart (s.nUart + k) = env.E_NO_ERROR := by
    intro s₁ hn hrun
    obtain ⟨deb, hdeb, -⟩ := ext_debounce (P := fun _ => True) (fun _ _ => trivial) trivial
      env 0 s₁
    have hext := ext_uartDrain (P := fun _ => True) (fun _ _ => trivial) (fun _ => trivial)
      env fuel (debounce env 0 s₁)
    rw [hrun] at hext
    obtain ⟨drain, hdrain, -⟩ := hext
    replace hdrain : s'.trace = (debounce env 0 s₁).trace ++ drain := hdrain
    obtain ⟨k, hk, hbusy, hready, htr⟩ := uartDrain_done env fuel _ _ hrun
    rw [debounce_nUart, hn] at hbusy hready htr
    refine ⟨deb, drain, k, ?_, ?_, ?_, hk, hbusy, hready⟩
    · show s'.trace = s₁.trace ++ deb ++ drain
      rw [hdrain, hdeb]
    · exact hw_grown hdeb (hw_debounce env debounceCount 0 s₁ rfl)
    · refine hw_grown hdrain ?_
      rw [htr, List.append_assoc]
  by_cases hw0 : w = 0
  · subst hw0
    rw [setTrigger_zero] at h
    obtain ⟨deb, drain, k, htr, rest⟩ := tail { s with buttonPressed := 0 } rfl h
    exact ⟨deb, drain, k, by simpa using htr, rest⟩
  · rw [setTrigger_nonzero env fuel w hw0] at h
    cases hwait : waitTrigger env fuel { s with buttonPressed := 0 } with
    | done s₁ =>
      rw [hwait] at h
      obtain ⟨htr₁, hn₁⟩ := waitTrigger_done_trace env fuel _ _ hwait rfl
      obtain ⟨deb, drain, k, htr, rest⟩ := tail s₁ hn₁ h
      refine ⟨deb, drain, k, ?_, rest⟩
      rw [htr, htr₁, if_pos hw0]
    | reset s₁ => rw [hwait] at h; simp [Outcome.andThen] at h
    | running l s₁ => rw [hwait] at h; simp [Outcome.andThen] at h

/-! ### The sampling loop and `main` -/

theorem ext_emit_of {P : Event → Prop} (hC : ∀ e, e.isConsole = true → P e) (env : Env)
    {e : Event} {s s' : State} (h : Ext P s s') (he : P e) : Ext P s (emit env e s') :=
  h.append (ext_emit hC env e he s')

theorem ext_readAdc {P : Event → Prop} (hP : ∀ e, P e) (env : Env) (s : State) :
    Ext P s (readAdc env s) := by
  have hC : ∀ e, e.isConsole = true → P e := fun e _ => hP e
  unfold readAdc
  simp only []
  refine ext_emit_of hC env ?_ (hP _)
  refine ext_emit_of hC env ?_ (hP _)
  show Ext P s (emit env _ (emit env _ _))
  refine ext_emit_of hC env ?_ (hP _)
  refine ext_emit_of hC env ?_ (hP _)
  show Ext P s (emit env _ _)
  exact ext_emit_of hC env (Ext.none P s) (hP _)

theorem ext_readPin {P : Event → Prop} (hP : ∀ e, P e) (env : Env) (s : State) :
    Ext P s (readPin env s) := by
  unfold readPin
  show Ext P s (emit env _ _)
  exact ext_emit_of (fun e _ => hP e) env (Ext.none P s) (hP _)

theorem ext_softReset {P : Event → Prop} (hP : ∀ e, P e) (env : Env) (fuel : ℕ) (s : State) :
    Ext P s (softReset env fuel s).state := by
  have hC : ∀ e, e.isConsole = true → P e := fun e _ => hP e
  unfold softReset
  apply ext_andThen
  · exact (ext_emit hC env _ (hP _) s).append (ext_uartDrain hC (fun _ => hP _) env fuel _)
  · intro s₁ _
    exact ext_emit hC env _ (hP _) s₁

theorem ext_enterSleep {P : Event → Prop} (hP : ∀ e, P e) (env : Env) (fuel : ℕ) (s : State) :
    Ext P s (enterSleep env fuel s).state := by
  have hC : ∀ e, e.isConsole = true → P e := fun e _ => hP e
  unfold enterSleep
  simp only []
  apply ext_andThen
  · refine Ext.append ?_ (ext_uartDrain hC (fun _ => hP _) env fuel _)
    refine ext_emit_of hC env ?_ (hP _)
    refine ext_emit_of hC env ?_ (hP _)
    exact ext_emit_of hC env (Ext.none P s) (hP _)
  · intro s₁ _
    exact ext_emit hC env _ (hP _) s₁

theorem ext_loopBody {P : Event → Prop} (hP : ∀ e, P e) (env : Env) (fuel : ℕ) (s : State) :
    Ext P s (loopBody env fuel s).state := by
  have hC : ∀ e, e.isConsole = true → P e := fun e _ => hP e
  have h2 : Ext P s (readPin env (readAdc env s)) :=
    (ext_readAdc hP env s).append (ext_readPin hP env _)
  unfold loopBody
  simp only []
  apply ext_andThen
  · split_ifs
    · exact h2.append (ext_softReset hP env fuel _)
    · exact h2
  · intro s₁ _
    apply ext_andThen
    · split_ifs
      · exact ext_enterSleep hP env fuel s₁
      · exact ext_emit hC env _ (hP _) s₁
    · intro s₂ _
      exact ext_emit hC env _ (hP _) s₂

theorem ext_mainLoop {P : Event → Prop} (hP : ∀ e, P e) (env : Env) (fuel : ℕ) :
    ∀ (n : ℕ) (s : State), Ext P s (mainLoop env fuel n s).state := by
  intro n
  induction n with
  | zero => intro s; exact Ext.none P s
  | succ n ih =>
    intro s
    rw [mainLoop]
    exact ext_andThen (ext_loopBody hP env fuel s) (fun s₁ _ => ih s₁)

theorem ext_configure {P : Event → Prop} (hC : ∀ e, e.isConsole = true → P e) (env : Env)
    (hP : ∀ e ∈ configureActions env, P e) (s : State) : Ext P s (configure env s) := by
  unfold configure
  simp only []
  refine ext_emit_of hC env ?_ (hP _ (by simp [configureActions]))
  refine ext_emit_of hC env ?_ (hP _ (by simp [configureActions]))
  refine ext_emit_of hC env ?_ (hP _ (by simp [configureActions]))
  show Ext P s (emit env _ _)
  refine ext_emit_of hC env ?_ (hP _ (by simp [configureActions]))
  refine ext_emit_of hC env ?_ (hP _ (by simp [configureActions]))
  refine ext_emit_of hC env ?_ (hP _ (by simp [configureActions]))
  exact ext_emit_of hC env (Ext.none P s) (hP _ (by simp [configureActions]))

theorem ext_announce {P : Event → Prop} (hC : ∀ e, e.isConsole = true → P e) (env : Env)
    (hP : ∀ e ∈ monitorActions, P e) (s : State) : Ext P s (announce env s) := by
  unfold announce
  simp only []
  refine ext_emit_of hC env ?_ (hC _ rfl)
  refine ext_emit_of hC env ?_ (hC _ rfl)
  refine ext_emit_of hC env ?_ (hC _ rfl)
  show Ext P s (emit env _ _)
  refine ext_emit_of hC env ?_ (hP _ (by simp [monitorActions]))
  refine ext_emit_of hC env ?_ (hP _ (by simp [monitorActions]))
  refine ext_emit_of hC env ?_ (hP _ (by simp [monitorActions]))
  exact ext_emit_of hC env (Ext.none P s) (hP _ (by simp [monitorActions]))

theorem hw_configure (env : Env) (s : State) :
    hw (configure env s).trace = hw s.trace ++ configureActions env := by
  simp [configure, configureActions, Event.isConsole]

theorem hw_announce (env : Env) (s : State) :
    hw (announce env s).trace = hw s.trace ++ monitorActions := by
  simp [announce, monitorActions, Event.isConsole]

/-- The spin loop never ends and does nothing to the hardware. -/
theorem spin_running (env : Env) : ∀ (fuel : ℕ) (s : State),
    ∃ s', spin env fuel s = .running .spin s' ∧ hw s'.trace = hw s.trace := by
  intro fuel
  induction fuel with
  | zero => intro s; exact ⟨s, rfl, rfl⟩
  | succ f ih =>
    intro s
    obtain ⟨s', hrun, htr⟩ := ih (poll env s)
    exact ⟨s', by rw [spin]; exact hrun, by rw [htr, hw_poll]⟩

theorem ext_spin {P : Event → Prop} (hC : ∀ e, e.isConsole = true → P e) (env : Env) :
    ∀ (fuel : ℕ) (s : State), Ext P s (spin env fuel s).state := by
  intro fuel
  induction fuel with
  | zero => intro s; exact Ext.none P s
  | succ f ih =>
    intro s
    rw [spin]
    exact (ext_poll hC env s).append (ih _)

theorem not_inSpin_andThen {o : Outcome} {k : State → Outcome} (h₁ : o.inSpin = false)
    (h₂ : ∀ s, (k s).inSpin = false) : (o.andThen k).inSpin = false := by
  cases o with
  | done s => exact h₂ s
  | reset s => exact h₁
  | running l s => exact h₁

theorem not_inSpin_uartDrain (env : Env) :
    ∀ (fuel : ℕ) (s : State), (uartDrain env fuel s).inSpin = false := by
  intro fuel
  induction fuel with
  | zero => intro s; rfl
  | succ f ih =>
    intro s
    rw [uartDrain]
    simp only
    split_ifs
    · exact ih _
    · rfl

theorem not_inSpin_waitTrigger (env : Env) :
    ∀ (fuel : ℕ) (s : State), (waitTrigger env fuel s).inSpin = false := by
  intro fuel
  induction fuel with
  | zero => intro s; rfl
  | succ f ih =>
    intro s
    rw [waitTrigger]
    split_ifs
    · exact ih _
    · rfl

theorem not_inSpin_setTrigger (env : Env) (fuel : ℕ) (w : ℤ) (s : State) :
    (setTrigger env fuel w s).inSpin = false := by
  unfold setTrigger
  simp only []
  apply not_inSpin_andThen
  · split_ifs
    · exact not_inSpin_waitTrigger env fuel _
    · rfl
  · intro s₁
    exact not_inSpin_uartDrain env fuel _

theorem not_inSpin_loopBody (env : Env) (fuel : ℕ) (s : State) :
    (loopBody env fuel s).inSpin = false := by
  unfold loopBody softReset enterSleep
  simp only []
  apply not_inSpin_andThen
  · split_ifs
    · exact not_inSpin_andThen (not_inSpin_uartDrain env fuel _) (fun _ => rfl)
    · rfl
  · intro s₁
    apply not_inSpin_andThen
    · split_ifs
      · exact not_inSpin_andThen (not_inSpin_uartDrain env fuel _) (fun _ => rfl)
      · rfl
    · intro s₂
      rfl

theorem not_inSpin_mainLoop (env : Env) (fuel : ℕ) :
    ∀ (n : ℕ) (s : State), (mainLoop env fuel n s).inSpin = false := by
  intro n
  induction n with
  | zero => intro s; rfl
  | succ n ih =>
    intro s
    rw [mainLoop]
    exact not_inSpin_andThen (not_inSpin_loopBody env fuel s) ih

theorem not_inSpin_mainAfterInit (env : Env) (fuel : ℕ) (s : State) :
    (mainAfterInit env fuel s).inSpin = false := by
  unfold mainAfterInit
  exact not_inSpin_andThen (not_inSpin_setTrigger env fuel 1 _)
    (fun _ => not_inSpin_mainLoop env fuel fuel _)

theorem isConsole_notAdc (e : Event) (h : e.isConsole = true) : e.notAdc := by
  cases e <;> first | rfl | exact Bool.noConfusion h

/-- In a list cut in two, an element absent from the first part lies in the
second, and what comes before it contains the first part. -/
theorem mem_before_of_split {l₁ l₂ a b : List Event} {x y : Event}
    (h : l₁ ++ l₂ = a ++ x :: b) (hx : x ∉ l₁) (hy : l₂ ≠ [] → y ∈ l₁) : y ∈ a := by
  rcases List.append_eq_append_iff.1 h with ⟨a', ha, hl⟩ | ⟨c', hl, hc⟩
  · rw [ha]
    exact List.mem_append_left _ (hy (by rw [hl]; simp))
  · cases c' with
    | nil =>
      simp only [List.append_nil] at hl
      simp only [List.nil_append] at hc
      rw [← hl]
      exact hy (by rw [← hc]; simp)
    | cons z c'' =>
      simp only [List.cons_append, List.cons.injEq] at hc
      exfalso
      apply hx
      rw [hl, hc.1]
      simp

/-- The trace of `main` splits in two: a first part without ADC conversion,
and a second part that is empty unless the handler has run in the first. -/
theorem main_trace_split (env : Env) (fuel : ℕ) (s : State) :
    ∃ l₁ l₂, (main env fuel s).state.trace = s.trace ++ l₁ ++ l₂ ∧
      (∀ e ∈ l₁, e.notAdc) ∧ (l₂ ≠ [] → Event.printf .interruptOccured ∈ l₁) := by
  have hcfg : Ext Event.notAdc s (configure env s) :=
    ext_configure isConsole_notAdc env
      (by intro e he; simp only [configureActions, List.mem_cons, List.mem_singleton,
            List.not_mem_nil, or_false] at he
          rcases he with rfl | rfl | rfl | rfl | rfl | rfl | rfl <;> rfl) s
  unfold main
  simp only []
  split_ifs with hinit
  · have h := hcfg.append ((ext_emit isConsole_notAdc env (.printf .errorBadParameter) rfl
      _).append (ext_spin isConsole_notAdc env fuel _))
    obtain ⟨l₁, e₁, p₁⟩ := h
    exact ⟨l₁, [], by rw [e₁]; simp, p₁, fun h => absurd rfl h⟩
  · have hann : Ext Event.notAdc s (announce env (configure env s)) :=
      hcfg.append (ext_announce isConsole_notAdc env
        (by intro e he; simp only [monitorActions, List.mem_cons, List.mem_singleton,
              List.not_mem_nil, or_false] at he
            rcases he with rfl | rfl | rfl | rfl <;> rfl) _)
    have htrig := ext_setTrigger isConsole_notAdc (fun _ => rfl) rfl env fuel 1
      (announce env (configure env s))
    unfold mainAfterInit
    cases hst : setTrigger env fuel 1 (announce env (configure env s)) with
    | done s₈ =>
      rw [hst] at htrig
      obtain ⟨l₁, e₁, p₁⟩ := hann.append htrig
      obtain ⟨l₀, e₀, -⟩ := hann
      obtain ⟨deb, drain, k, htr, -⟩ := setTrigger_done env fuel 1 _ _ hst
      have hrest : Ext (fun _ => True) s₈
          (mainLoop env fuel fuel
            (emit env (.MXC_LP_EnableGPIOWakeup Interrupt_PIN_input) s₈)).state :=
        (ext_emit (fun _ _ => trivial) env _ trivial s₈).append
          (ext_mainLoop (fun _ => trivial) env fuel fuel _)
      obtain ⟨l₂, e₂, -⟩ := hrest
      refine ⟨l₁, l₂, ?_, p₁, fun _ => ?_⟩
      · show (mainLoop env fuel fuel _).state.trace = _
        rw [e₂]
        congr 1
      · have hl : l₁ = l₀ ++ handlerOutput ++ deb ++ drain := by
          have e₁' : s₈.trace = s.trace ++ l₁ := e₁
          rw [htr, e₀, if_pos (by norm_num)] at e₁'
          simp only [List.append_assoc] at e₁'
          have := List.append_cancel_left e₁'
          rw [← this]
          simp
        rw [hl]
        simp [handlerOutput]
    | reset s₈ =>
      rw [hst] at htrig
      obtain ⟨l₁, e₁, p₁⟩ := hann.append htrig
      exact ⟨l₁, [], by rw [List.append_nil]; exact e₁, p₁, fun h => absurd rfl h⟩
    | running l s₈ =>
      rw [hst] at htrig
      obtain ⟨l₁, e₁, p₁⟩ := hann.append htrig
      exact ⟨l₁, [], by rw [List.append_nil]; exact e₁, p₁, fun h => absurd rfl h⟩

/-- The flag when `setTrigger(w)` returns: 1 if `w` is non-zero or the button
was pressed during the call, 0 otherwise. -/
theorem setTrigger_flag (env : Env) (fuel : ℕ) (w : ℤ) (s s' : State)
    (h : setTrigger env fuel w s = .done s') :
    (w ≠ 0 ∨ Pressed env s s' → s'.buttonPressed = 1) ∧
    (w = 0 ∧ ¬ Pressed env s s' → s'.buttonPressed = 0) := by
  have tail : ∀ s₁ : State, uartDrain env fuel (debounce env 0 s₁) = .done s' →
      Latch env s₁ s' := by
    intro s₁ hrun
    have := (latch_debounce env 0 s₁).seq (latch_uartDrain env fuel _)
    rwa [hrun] at this
  by_cases hw0 : w = 0
  · subst hw0
    rw [setTrigger_zero] at h
    obtain ⟨-, -, hp, hn⟩ := tail _ h
    refine ⟨?_, ?_⟩
    · rintro (h0 | hpr)
      · exact absurd rfl h0
      · exact hp hpr
    · rintro ⟨-, hnp⟩
      exact hn hnp
  · rw [setTrigger_nonzero env fuel w hw0] at h
    refine ⟨fun _ => ?_, fun hc => absurd hc.1 hw0⟩
    cases hwait : waitTrigger env fuel { s with buttonPressed := 0 } with
    | done s₁ =>
      rw [hwait] at h
      have hl := latch_waitTrigger env fuel { s with buttonPressed := 0 }
      rw [hwait] at hl
      obtain ⟨-, -, hp₁, hn₁⟩ := hl
      have hne := waitTrigger_done_flag env fuel _ _ hwait
      have h1 : s₁.buttonPressed = 1 := by
        by_cases hpr : Pressed env { s with buttonPressed := 0 } (Outcome.done s₁).state
        · exact hp₁ hpr
        · exact absurd (hn₁ hpr) hne
      obtain ⟨-, -, hp, hn⟩ := tail s₁ h
      by_cases hpr : Pressed env s₁ s'
      · exact hp hpr
      · rw [hn hpr, h1]
    | reset s₁ => rw [hwait] at h; simp [Outcome.andThen] at h
    | running l s₁ => rw [hwait] at h; simp [Outcome.andThen] at h

/-! ## The claims -/

/-- C1: for every code stored in `adc_val` and every prior state, if the reset
pin (P0.19) reads high and the voltage `c*1.2/1023` is at most 0.5, one
iteration of the sampling loop does, in this order and apart from console
output: the conversion, the read of the pin, `MXC_GPIO_OutClr` on P0.25, calls
of `MXC_UART_ReadyForSleep`, and then, unless it is still draining when the
bound on the loop is used up, `MXC_LP_EnterLowPowerMode` once and the 250 ms
delay; so there is no reset and no `MXC_GPIO_OutSet`, whatever the UART does.
When the UART reports ready at its `k`-th next call, control leaves the
iteration at its end, the last call to the UART being the one that returned
`E_NO_ERROR`. -/
theorem C1_sleep_iteration (env : Env) (s : State) (fuel : ℕ)
    (hpin : env.pin s.nPin ≠ 0)
    (hvolt : voltExact (toUInt32 (env.adc s.nAdc)) ≤ 1 / 2) :
    (∃ j s' tail, j ≤ fuel ∧
      hw s'.trace = hw s.trace ++
        [Event.MXC_ADC_StartConversion (env.adc s.nAdc),
         Event.MXC_GPIO_InGet Normal_PIN_input (env.pin s.nPin),
         Event.MXC_GPIO_OutClr Normal_PIN_output]
        ++ uartPolls env s.nUart j ++ tail ∧
      ((loopBody env fuel s = .done s' ∧
          tail = [Event.MXC_LP_EnterLowPowerMode, Event.MXC_TMR_Delay (MSEC 250)]) ∨
       (loopBody env fuel s = .running .uartDrain s' ∧ tail = []))) ∧
    (∀ k, (∀ j < k, env.uart (s.nUart + j) ≠ env.E_NO_ERROR) →
      env.uart (s.nUart + k) = env.E_NO_ERROR → k < fuel →
      ∃ s', loopBody env fuel s = .done s' ∧
        hw s'.trace = hw s.trace ++
          [Event.MXC_ADC_StartConversion (env.adc s.nAdc),
           Event.MXC_GPIO_InGet Normal_PIN_input (env.pin s.nPin),
           Event.MXC_GPIO_OutClr Normal_PIN_output]
          ++ uartPolls env s.nUart k ++
          [Event.MXC_UART_ReadyForSleep env.E_NO_ERROR,
           Event.MXC_LP_EnterLowPowerMode,
           Event.MXC_TMR_Delay (MSEC 250)]) := by
  have hv : inputVoltOf (toUInt32 (env.adc s.nAdc)) ≤ 1 / 2 :=
    (inputVoltOf_le_half_iff _).2 ((voltExact_le_half_iff _).1 hvolt)
  have hbody := loopBody_high env fuel s hpin
  rw [if_pos hv] at hbody
  constructor
  · obtain ⟨j, s₁, tail, hj, htr, hrun | hrun⟩ :=
      enterSleep_progress env fuel (readPin env (readAdc env s))
    · refine ⟨j, emit env (.MXC_TMR_Delay (MSEC 250)) s₁,
        [Event.MXC_LP_EnterLowPowerMode, Event.MXC_TMR_Delay (MSEC 250)], hj, ?_,
        Or.inl ⟨by rw [hbody, hrun.1]; rfl, rfl⟩⟩
      rw [hw_emit_action env (.MXC_TMR_Delay (MSEC 250)) s₁ rfl, htr, hrun.2, hw_readPin,
        hw_readAdc]
      simp
    · refine ⟨j, s₁, [], hj, ?_, Or.inr ⟨by rw [hbody, hrun.1]; rfl, rfl⟩⟩
      rw [htr, hrun.2, hw_readPin, hw_readAdc]
      simp
  · intro k hbusy hready hfuel
    obtain ⟨s1, hrun, htr⟩ := enterSleep_ready env k (readPin env (readAdc env s)) fuel
      (by simpa using hbusy) (by simpa using hready) hfuel
    refine ⟨emit env (.MXC_TMR_Delay (MSEC 250)) s1, ?_, ?_⟩
    · rw [hbody, hrun]; rfl
    · rw [hw_emit_action env (.MXC_TMR_Delay (MSEC 250)) s1 rfl, htr, hw_readPin, hw_readAdc]
      simp

/-- Witness of C1: code 300, pin high, UART busy once. -/
theorem C1_sleep_iteration_witness :
    ∃ s', loopBody (benchEnv 0 300 1 1 0) 2 State.init = .done s' ∧
      hw s'.trace =
        [Event.MXC_ADC_StartConversion 300,
         Event.MXC_GPIO_InGet Normal_PIN_input 1,
         Event.MXC_GPIO_OutClr Normal_PIN_output,
         Event.MXC_UART_ReadyForSleep (-1),
         Event.MXC_UART_ReadyForSleep 0,
         Event.MXC_LP_EnterLowPowerMode,
         Event.MXC_TMR_Delay 250000] := by
  have h := (C1_sleep_iteration (benchEnv 0 300 1 1 0) State.init 2
    (by simp [benchEnv])
    (by
      have h300 : toUInt32 300 = 300 := by decide
      simp only [benchEnv, State.init, h300]
      norm_num [voltExact])).2 1
    (by intro j hj; simp [benchEnv, State.init]; omega)
    (by simp [benchEnv, State.init])
    (by norm_num)
  simpa [benchEnv, State.init, hw, uartPolls, MSEC] using h

/-- C2: for every code stored in `adc_val` and every prior state, if the reset
pin reads high and the voltage `c*1.2/1023` is above 0.5, one iteration of the
sampling loop does, apart from console output: the conversion, the read of the
pin, `MXC_GPIO_OutSet` on P0.25 and the 250 ms delay; control leaves the
iteration at its end and the sampling loop goes on with its next iteration.
So low-power mode is not entered and no reset is issued. -/
theorem C2_active_iteration (env : Env) (s : State) (fuel : ℕ)
    (hpin : env.pin s.nPin ≠ 0)
    (hvolt : 1 / 2 < voltExact (toUInt32 (env.adc s.nAdc))) :
    ∃ s', loopBody env fuel s = .done s' ∧
      hw s'.trace = hw s.trace ++
        [Event.MXC_ADC_StartConversion (env.adc s.nAdc),
         Event.MXC_GPIO_InGet Normal_PIN_input (env.pin s.nPin),
         Event.MXC_GPIO_OutSet Normal_PIN_output,
         Event.MXC_TMR_Delay (MSEC 250)] ∧
      ∀ n, mainLoop env fuel (n + 1) s = mainLoop env fuel n s' := by
  have hv : ¬ inputVoltOf (toUInt32 (env.adc s.nAdc)) ≤ 1 / 2 := by
    rw [inputVoltOf_le_half_iff, ← voltExact_le_half_iff]
    exact not_le.mpr hvolt
  have hbody : loopBody env fuel s = .done (emit env (.MXC_TMR_Delay (MSEC 250))
      (emit env (.MXC_GPIO_OutSet Normal_PIN_output) (readPin env (readAdc env s)))) := by
    rw [loopBody_high env fuel s hpin, if_neg hv]; rfl
  refine ⟨_, hbody, ?_, ?_⟩
  · rw [hw_emit_action env (.MXC_TMR_Delay (MSEC 250)) _ rfl,
      hw_emit_action env (.MXC_GPIO_OutSet Normal_PIN_output) _ rfl, hw_readPin, hw_readAdc]
    simp
  · intro n
    rw [mainLoop, hbody]; rfl

/-- Witness of C2: code 600, pin high. -/
theorem C2_active_iteration_witness :
    ∃ s', loopBody (benchEnv 0 600 1 0 0) 0 State.init = .done s' ∧
      hw s'.trace =
        [Event.MXC_ADC_StartConversion 600,
         Event.MXC_GPIO_InGet Normal_PIN_input 1,
         Event.MXC_GPIO_OutSet Normal_PIN_output,
         Event.MXC_TMR_Delay 250000] ∧
      ∀ n, mainLoop (benchEnv 0 600 1 0 0) 0 (n + 1) State.init
        = mainLoop (benchEnv 0 600 1 0 0) 0 n s' := by
  have h := C2_active_iteration (benchEnv 0 600 1 0 0) State.init 0
    (by simp [benchEnv])
    (by
      have h600 : toUInt32 600 = 600 := by decide
      simp only [benchEnv, State.init, h600]
      norm_num [voltExact])
  simpa [benchEnv, State.init, hw, MSEC] using h

/-- C3: for every code, whatever its voltage, if the reset pin reads low in an
iteration of the sampling loop, the iteration does, apart from console output:
the conversion, the read of the pin, calls of `MXC_UART_ReadyForSleep`, and
then, unless it is still draining when the bound on the loop is used up,
`NVIC_SystemReset`. Control never leaves the iteration at its end: the
sampling loop, allowed any number `n + 1` of iterations, ends as this one
iteration does, so there is no indicator write, no low-power entry, no delay,
no further conversion and no further iteration. When the UART reports ready at
its `k`-th next call the reset is issued, right after the call that returned
`E_NO_ERROR`. -/
theorem C3_reset_iteration (env : Env) (s : State) (fuel : ℕ)
    (hpin : env.pin s.nPin = 0) :
    (∀ n, mainLoop env fuel (n + 1) s = loopBody env fuel s) ∧
    (∃ j s' tail, j ≤ fuel ∧
      hw s'.trace = hw s.trace ++
        [Event.MXC_ADC_StartConversion (env.adc s.nAdc),
         Event.MXC_GPIO_InGet Normal_PIN_input 0]
        ++ uartPolls env s.nUart j ++ tail ∧
      ((loopBody env fuel s = .reset s' ∧ tail = [Event.NVIC_SystemReset]) ∨
       (loopBody env fuel s = .running .uartDrain s' ∧ tail = []))) ∧
    (∀ k, (∀ j < k, env.uart (s.nUart + j) ≠ env.E_NO_ERROR) →
      env.uart (s.nUart + k) = env.E_NO_ERROR → k < fuel →
      ∃ s', loopBody env fuel s = .reset s' ∧
        hw s'.trace = hw s.trace ++
          [Event.MXC_ADC_StartConversion (env.adc s.nAdc),
           Event.MXC_GPIO_InGet Normal_PIN_input 0]
          ++ uartPolls env s.nUart k ++
          [Event.MXC_UART_ReadyForSleep env.E_NO_ERROR, Event.NVIC_SystemReset]) := by
  have hbody := loopBody_low env fuel s hpin
  refine ⟨?_, ?_, ?_⟩
  · intro n
    rw [mainLoop, hbody, softReset_andThen]
  · obtain ⟨j, s₁, tail, hj, htr, hrun⟩ :=
      softReset_progress env fuel (readPin env (readAdc env s))
    refine ⟨j, s₁, tail, hj, ?_, by rw [hbody]; exact hrun⟩
    rw [htr, hw_readPin, hw_readAdc]
    simp [hpin]
  · intro k hbusy hready hfuel
    obtain ⟨s1, hrun, htr⟩ := softReset_ready env k (readPin env (readAdc env s)) fuel
      (by simpa using hbusy) (by simpa using hready) hfuel
    refine ⟨s1, by rw [hbody, hrun], ?_⟩
    rw [htr, hw_readPin, hw_readAdc]
    simp [hpin]

/-- Witness of C3: code 300 (a voltage below 0.5), pin low, UART busy once. -/
theorem C3_reset_iteration_witness :
    ∃ s', loopBody (benchEnv 0 300 0 1 0) 2 State.init = .reset s' ∧
      hw s'.trace =
        [Event.MXC_ADC_StartConversion 300,
         Event.MXC_GPIO_InGet Normal_PIN_input 0,
         Event.MXC_UART_ReadyForSleep (-1),
         Event.MXC_UART_ReadyForSleep 0,
         Event.NVIC_SystemReset] := by
  have h := (C3_reset_iteration (benchEnv 0 300 0 1 0) State.init 2
    (by simp [benchEnv])).2.2 1
    (by intro j hj; simp [benchEnv, State.init]; omega)
    (by simp [benchEnv, State.init])
    (by norm_num)
  simpa [benchEnv, State.init, hw, uartPolls] using h

/-- C4: over exact rational arithmetic the conversion `(adc_val * 1.2) / 1023`
maps code 0 to 0 and code 1023 to 1.2; it maps code 426 strictly below 0.5,
the test `inputVolt <= 0.5` of the program holds for it and, the reset pin
high, the iteration goes on with `MXC_GPIO_OutClr` (sleep branch); it maps
code 427 strictly above 0.5, the test fails for it and the iteration goes on
with `MXC_GPIO_OutSet` (active branch). -/
theorem C4_boundary_codes :
    voltExact 0 = 0 ∧ voltExact 1023 = 12 / 10 ∧
    (voltExact 426 < 1 / 2 ∧ inputVoltOf 426 ≤ 1 / 2) ∧
    (1 / 2 < voltExact 427 ∧ ¬ inputVoltOf 427 ≤ 1 / 2) ∧
    (∀ (env : Env) (fuel : ℕ) (s : State), env.adc s.nAdc = 426 → env.pin s.nPin ≠ 0 →
      ∃ rest, hw (loopBody env fuel s).state.trace = hw s.trace ++
        [Event.MXC_ADC_StartConversion 426,
         Event.MXC_GPIO_InGet Normal_PIN_input (env.pin s.nPin),
         Event.MXC_GPIO_OutClr Normal_PIN_output] ++ rest) ∧
    (∀ (env : Env) (fuel : ℕ) (s : State), env.adc s.nAdc = 427 → env.pin s.nPin ≠ 0 →
      ∃ rest, hw (loopBody env fuel s).state.trace = hw s.trace ++
        [Event.MXC_ADC_StartConversion 427,
         Event.MXC_GPIO_InGet Normal_PIN_input (env.pin s.nPin),
         Event.MXC_GPIO_OutSet Normal_PIN_output] ++ rest) := by
  have h426 : toUInt32 426 = 426 := by decide
  have h427 : toUInt32 427 = 427 := by decide
  refine ⟨by norm_num [voltExact], by norm_num [voltExact],
    ⟨by norm_num [voltExact], ?_⟩, ⟨by norm_num [voltExact], ?_⟩, ?_, ?_⟩
  · exact (inputVoltOf_le_half_iff 426).2 (by norm_num)
  · rw [inputVoltOf_le_half_iff]; norm_num
  · intro env fuel s hadc hpin
    obtain ⟨rest, h⟩ := loopBody_branch env fuel s hpin
    rw [hadc, h426, if_pos (by norm_num)] at h
    exact ⟨rest, h⟩
  · intro env fuel s hadc hpin
    obtain ⟨rest, h⟩ := loopBody_branch env fuel s hpin
    rw [hadc, h427, if_neg (by norm_num)] at h
    exact ⟨rest, h⟩

/-- C9, as stated, fails: the voltage of code 426 is not within 0.00005 of
0.4996, and that of code 427 is not within 0.00005 of 0.5007, neither over
exact arithmetic nor as the `float` the program stores. -/
theorem C9_spec_values_off :
    ¬ |voltExact 426 - 4996 / 10000| < 5 / 100000 ∧
    ¬ |voltExact 427 - 5007 / 10000| < 5 / 100000 ∧
    ¬ |inputVoltOf 426 - 4996 / 10000| < 5 / 100000 ∧
    ¬ |inputVoltOf 427 - 5007 / 10000| < 5 / 100000 := by
  rw [inputVoltOf_426, inputVoltOf_427]
  have e6 : voltExact 426 = 5112 / 10230 := by norm_num [voltExact]
  have e7 : voltExact 427 = 5124 / 10230 := by norm_num [voltExact]
  rw [e6, e7]
  refine ⟨?_, ?_, ?_, ?_⟩ <;> rw [abs_lt] <;> norm_num

/-- C9, amended: to four decimal places the voltage of code 426 is 0.4997 and
that of code 427 is 0.5009, over exact arithmetic and as the `float` the
program stores. -/
theorem C9_boundary_values :
    |voltExact 426 - 4997 / 10000| < 5 / 100000 ∧
    |voltExact 427 - 5009 / 10000| < 5 / 100000 ∧
    |inputVoltOf 426 - 4997 / 10000| < 5 / 100000 ∧
    |inputVoltOf 427 - 5009 / 10000| < 5 / 100000 := by
  rw [inputVoltOf_426, inputVoltOf_427]
  have e6 : voltExact 426 = 5112 / 10230 := by norm_num [voltExact]
  have e7 : voltExact 427 = 5124 / 10230 := by norm_num [voltExact]
  rw [e6, e7]
  refine ⟨?_, ?_, ?_, ?_⟩ <;> rw [abs_lt] <;> norm_num

/-- C5, as stated, fails: called with a non-zero argument while the button is
pressed and the UART is ready, `setTrigger` returns with the flag
`buttonPressed` equal to 1, not 0. -/
theorem C5_flag_set_at_return :
    ∃ s', setTrigger (benchEnv 0 0 1 0 0) 1 1 { State.init with irqEnabled := true } = .done s' ∧
      s'.buttonPressed = 1 ∧ s'.buttonPressed ≠ 0 := by
  obtain ⟨s', hrun, -⟩ := setTrigger_returns (benchEnv 0 0 1 0 0)
    { State.init with irqEnabled := true } 1 1 0 0
    (fun _ => ⟨rfl, by intro j hj; omega, by simp [benchEnv], by norm_num⟩)
    (by intro j hj; omega) (by simp [benchEnv, State.init]) (by norm_num)
  have h1 := (setTrigger_flag _ _ _ _ _ hrun).1 (Or.inl (by norm_num))
  exact ⟨s', hrun, h1, by rw [h1]; norm_num⟩

/-- C5, amended: `setTrigger(w)` clears the flag when it is entered, not before
it returns. At the moment it returns, the flag is 1 if `w` is non-zero or a
button interrupt was taken during the call, and 0 otherwise (that is, for
`w = 0` without a button interrupt during the call). It does return once the
button is pressed (needed for non-zero `w` only) and the UART gets ready. -/
theorem C5_flag_at_return (env : Env) (fuel : ℕ) (w : ℤ) (s : State) :
    (∀ s', setTrigger env fuel w s = .done s' →
      (w ≠ 0 ∨ Pressed env s s' → s'.buttonPressed = 1) ∧
      (w = 0 ∧ ¬ Pressed env s s' → s'.buttonPressed = 0)) ∧
    (∀ m k,
      (w ≠ 0 → s.irqEnabled = true ∧ (∀ j < m, env.irq (s.time + j) = false) ∧
        env.irq (s.time + m) = true ∧ m < fuel) →
      (∀ j < k, env.uart (s.nUart + j) ≠ env.E_NO_ERROR) →
      env.uart (s.nUart + k) = env.E_NO_ERROR → k < fuel →
      ∃ s', setTrigger env fuel w s = .done s') := by
  refine ⟨fun s' h => setTrigger_flag env fuel w s s' h, ?_⟩
  intro m k hbtn hbusy hready hk
  obtain ⟨s', hrun, -⟩ := setTrigger_returns env s fuel w m k hbtn hbusy hready hk
  exact ⟨s', hrun⟩

/-- Witness of C5 as amended: `setTrigger(0)` with the interrupt not enabled
returns with the flag 0. -/
theorem C5_flag_at_return_witness :
    ∃ s', setTrigger (benchEnv 0 0 1 0 0) 1 0 State.init = .done s' ∧ s'.buttonPressed = 0 := by
  obtain ⟨s', hrun⟩ := (C5_flag_at_return (benchEnv 0 0 1 0 0) 1 0 State.init).2 0 0
    (fun h => absurd rfl h)
    (by intro j hj; omega) (by simp [benchEnv, State.init]) (by norm_num)
  refine ⟨s', hrun,
    ((C5_flag_at_return (benchEnv 0 0 1 0 0) 1 0 State.init).1 s' hrun).2 ⟨rfl, ?_⟩⟩
  rintro ⟨hen, -⟩
  simp [State.init] at hen

/-- C6: if `MXC_ADC_Init` returns anything but `E_NO_ERROR`, then whatever the
bound on the loops, `main` is inside the spin loop and its hardware actions are
those of the configuration up to `MXC_ADC_Init` and nothing more: no ADC
monitor set-up, none of the actions of `setTrigger`, no conversion, no
indicator write, no low-power entry, no reset. If `MXC_ADC_Init` returns
`E_NO_ERROR`, `main` is never inside the spin loop, and its hardware actions
go on with the ADC monitor set-up. -/
theorem C6_adc_init_failure (env : Env) (fuel : ℕ) (s : State) :
    (env.adcInit ≠ env.E_NO_ERROR →
      ∃ s', main env fuel s = .running .spin s' ∧
        hw s'.trace = hw s.trace ++
          [Event.MXC_GPIO_RegisterCallback Interrupt_PIN_input,
           Event.MXC_GPIO_IntConfig Interrupt_PIN_input,
           Event.MXC_GPIO_EnableInt Interrupt_PIN_input,
           Event.NVIC_EnableIRQ,
           Event.MXC_GPIO_Config Normal_PIN_input,
           Event.MXC_GPIO_Config Normal_PIN_output,
           Event.MXC_ADC_Init env.adcInit]) ∧
    (env.adcInit = env.E_NO_ERROR →
      (main env fuel s).inSpin = false ∧
      ∃ rest, hw (main env fuel s).state.trace = hw s.trace ++
          [Event.MXC_GPIO_RegisterCallback Interrupt_PIN_input,
           Event.MXC_GPIO_IntConfig Interrupt_PIN_input,
           Event.MXC_GPIO_EnableInt Interrupt_PIN_input,
           Event.NVIC_EnableIRQ,
           Event.MXC_GPIO_Config Normal_PIN_input,
           Event.MXC_GPIO_Config Normal_PIN_output,
           Event.MXC_ADC_Init env.E_NO_ERROR,
           Event.MXC_ADC_SetMonitorChannel,
           Event.MXC_ADC_SetMonitorHighThreshold 0x300,
           Event.MXC_ADC_SetMonitorLowThreshold 0x25,
           Event.MXC_ADC_EnableMonitor] ++ rest) := by
  constructor
  · intro hinit
    obtain ⟨s', hrun, htr⟩ := spin_running env fuel
      (emit env (.printf .errorBadParameter) (configure env s))
    refine ⟨s', ?_, ?_⟩
    · unfold main
      simp only []
      rw [if_pos hinit]
      exact hrun
    · rw [htr, hw_emit_console env (.printf .errorBadParameter) _ rfl, hw_configure]
      rfl
  · intro hinit
    have hmain : main env fuel s = mainAfterInit env fuel (configure env s) := by
      unfold main
      simp only []
      rw [if_neg (by simpa using hinit)]
    rw [hmain]
    refine ⟨not_inSpin_mainAfterInit env fuel _, ?_⟩
    have hgrow : Ext (fun _ => True) (announce env (configure env s))
        (mainAfterInit env fuel (configure env s)).state := by
      unfold mainAfterInit
      refine ext_andThen (ext_setTrigger (fun _ _ => trivial) (fun _ => trivial) trivial
        env fuel 1 _) (fun s₁ _ => ?_)
      exact (ext_emit (fun _ _ => trivial) env _ trivial s₁).append
        (ext_mainLoop (fun _ => trivial) env fuel fuel _)
    obtain ⟨rest, hrest⟩ := ext_hw hgrow
    refine ⟨rest, ?_⟩
    rw [hrest, hw_announce, hw_configure]
    simp [configureActions, monitorActions, hinit]

/-- Witness of C6: `MXC_ADC_Init` returns -1; with the loops bounded by 7,
`main` is in the spin loop having done the configuration only. -/
theorem C6_adc_init_failure_witness :
    ∃ s', main (benchEnv (-1) 300 1 0 0) 7 State.init = .running .spin s' ∧
      hw s'.trace =
        [Event.MXC_GPIO_RegisterCallback Interrupt_PIN_input,
         Event.MXC_GPIO_IntConfig Interrupt_PIN_input,
         Event.MXC_GPIO_EnableInt Interrupt_PIN_input,
         Event.NVIC_EnableIRQ,
         Event.MXC_GPIO_Config Normal_PIN_input,
         Event.MXC_GPIO_Config Normal_PIN_output,
         Event.MXC_ADC_Init (-1)] := by
  have h := (C6_adc_init_failure (benchEnv (-1) 300 1 0 0) 7 State.init).1
    (by simp [benchEnv])
  simpa [benchEnv, State.init, hw] using h

/-- C7: `setTrigger(w)`, from any state and so whatever the flag was.
(1) When it returns, what happened during the call is, in this order: for
non-zero `w` one run of `buttonHandler`; then the debounce loop with exactly
`debounceCount = 0x100000` `__NOP()`s as its hardware actions, whatever
interrupts arrived; then calls of `MXC_UART_ReadyForSleep`, the last of which
returned `E_NO_ERROR`.
(2) For non-zero `w`, as long as no button interrupt is taken it stays in the
wait loop and does nothing.
(3) It does return once the button is pressed (needed for non-zero `w` only,
for `w = 0` nothing is asked of the button) and the UART gets ready.
(4) In `main`, every ADC conversion comes after a run of `buttonHandler`. -/
theorem C7_setTrigger (env : Env) (fuel : ℕ) (w : ℤ) (s : State) :
    debounceCount = 0x100000 ∧
    (∀ s', setTrigger env fuel w s = .done s' →
      ∃ deb drain k,
        s'.trace = s.trace ++ (if w ≠ 0 then handlerOutput else []) ++ deb ++ drain ∧
        hw deb = List.replicate debounceCount Event.NOP ∧
        hw drain = uartPolls env s.nUart k ++ [Event.MXC_UART_ReadyForSleep env.E_NO_ERROR] ∧
        (∀ j < k, env.uart (s.nUart + j) ≠ env.E_NO_ERROR)) ∧
    (w ≠ 0 → (∀ t, s.time ≤ t → (s.irqEnabled && env.irq t) = false) →
      ∃ s', setTrigger env fuel w s = .running .waitTrigger s' ∧ s'.trace = s.trace) ∧
    (∀ m k,
      (w ≠ 0 → s.irqEnabled = true ∧ (∀ j < m, env.irq (s.time + j) = false) ∧
        env.irq (s.time + m) = true ∧ m < fuel) →
      (∀ j < k, env.uart (s.nUart + j) ≠ env.E_NO_ERROR) →
      env.uart (s.nUart + k) = env.E_NO_ERROR → k < fuel →
      ∃ s', setTrigger env fuel w s = .done s' ∧
        hw s'.trace = hw s.trace ++ List.replicate debounceCount Event.NOP
          ++ uartPolls env s.nUart k ++ [Event.MXC_UART_ReadyForSleep env.E_NO_ERROR]) ∧
    (∀ a r b, (main env fuel s).state.trace
        = s.trace ++ a ++ Event.MXC_ADC_StartConversion r :: b →
      Event.printf .interruptOccured ∈ a) := by
  refine ⟨rfl, ?_, ?_, ?_, ?_⟩
  · intro s' h
    obtain ⟨deb, drain, k, htr, hdeb, hdrain, -, hbusy, -⟩ := setTrigger_done env fuel w s s' h
    exact ⟨deb, drain, k, htr, hdeb, hdrain, hbusy⟩
  · intro hw0 hquiet
    obtain ⟨s', hrun, htr⟩ := waitTrigger_blocks env fuel { s with buttonPressed := 0 } rfl hquiet
    exact ⟨s', by rw [setTrigger_nonzero env fuel w hw0, hrun]; rfl, htr⟩
  · intro m k hbtn hbusy hready hk
    exact setTrigger_returns env s fuel w m k hbtn hbusy hready hk
  · intro a r b h
    obtain ⟨l₁, l₂, hsplit, hno, hpress⟩ := main_trace_split env fuel s
    rw [hsplit, List.append_assoc, List.append_assoc] at h
    exact mem_before_of_split (List.append_cancel_left h)
      (fun hmem => Bool.noConfusion (hno _ hmem)) hpress

/-- Witness of C7: `setTrigger(1)` with the interrupt enabled, the button
pressed at the third interrupt window and the UART busy twice returns, having
done 0x100000 `__NOP()`s and three calls to the UART. -/
theorem C7_setTrigger_witness :
    ∃ s', setTrigger (benchEnv 0 0 1 2 2) 3 1 { State.init with irqEnabled := true } = .done s' ∧
      hw s'.trace = List.replicate debounceCount Event.NOP ++
        [Event.MXC_UART_ReadyForSleep (-1), Event.MXC_UART_ReadyForSleep (-1)]
        ++ [Event.MXC_UART_ReadyForSleep 0] := by
  obtain ⟨s', hrun, htr⟩ := (C7_setTrigger (benchEnv 0 0 1 2 2) 3 1
      { State.init with irqEnabled := true }).2.2.2.1 2 2
    (fun _ => ⟨rfl, by intro j hj; simp [benchEnv, State.init]; omega,
      by simp [benchEnv, State.init], by norm_num⟩)
    (by intro j hj; simp [benchEnv, State.init]; omega)
    (by simp [benchEnv, State.init]) (by norm_num)
  exact ⟨s', hrun, htr⟩

/-- C8: the flag is a latch, not a counter. Running `buttonHandler` any number
`n ≥ 1` of times in succession leaves `buttonPressed` at 1, as running it once
does, and the two states differ in nothing but the console output; so to
`setTrigger`, which reads the flag only, `n` button edges are one. -/
theorem C8_latch_not_counter (s : State) (n : ℕ) (hn : 1 ≤ n) :
    (buttonHandler^[n] s).buttonPressed = 1 ∧
    (buttonHandler^[n] s).buttonPressed = (buttonHandler s).buttonPressed ∧
    { buttonHandler^[n] s with trace := [] } = { buttonHandler s with trace := [] } := by
  have key : ∀ m : ℕ, { buttonHandler^[m + 1] s with trace := [] }
      = { buttonHandler s with trace := [] } := by
    intro m
    induction m with
    | zero => rfl
    | succ m ih =>
      rw [Function.iterate_succ_apply']
      have := congrArg State.adc_val ih
      have h₂ := congrArg State.inputVolt ih
      have h₃ := congrArg State.irqEnabled ih
      have h₄ := congrArg State.time ih
      have h₅ := congrArg State.nAdc ih
      have h₆ := congrArg State.nPin ih
      have h₇ := congrArg State.nUart ih
      simp only [buttonHandler] at *
      simp_all
  obtain ⟨m, rfl⟩ : ∃ m, n = m + 1 := ⟨n - 1, by omega⟩
  have h := key m
  have hflag : (buttonHandler^[m + 1] s).buttonPressed = 1 := by
    rw [Function.iterate_succ_apply']
    rfl
  exact ⟨hflag, by rw [hflag]; rfl, h⟩

/-- Witness of C8: three button edges from the initial state. -/
theorem C8_latch_not_counter_witness :
    (buttonHandler^[3] State.init).buttonPressed = 1 ∧
    (buttonHandler^[3] State.init).buttonPressed = (buttonHandler State.init).buttonPressed ∧
    { buttonHandler^[3] State.init with trace := [] }
      = { buttonHandler State.init with trace := [] } :=
  C8_latch_not_counter State.init 3 (by norm_num)

/-- C10: for every code `c` the exact voltage `c*1.2/1023` is never 0.5, nor
is the `float` the program stores; the test `inputVolt <= 0.5` of `main` is
equivalent to the strict test and to `c <= 426`. With the reset pin high, the
first hardware action of an iteration after the read of the pin is
`MXC_GPIO_OutClr` (the sleep branch) exactly for the codes 0..426 and
`MXC_GPIO_OutSet` (the active branch) exactly for the codes from 427 on. -/
theorem C10_threshold_is_426 (c : ℕ) :
    voltExact c ≠ 1 / 2 ∧ inputVoltOf c ≠ 1 / 2 ∧
    (inputVoltOf c ≤ 1 / 2 ↔ inputVoltOf c < 1 / 2) ∧
    (inputVoltOf c ≤ 1 / 2 ↔ c ≤ 426) ∧
    (voltExact c ≤ 1 / 2 ↔ c ≤ 426) ∧
    (∀ (env : Env) (fuel : ℕ) (s : State),
      toUInt32 (env.adc s.nAdc) = c → env.pin s.nPin ≠ 0 →
      ∃ rest, hw (loopBody env fuel s).state.trace = hw s.trace ++
        [Event.MXC_ADC_StartConversion (env.adc s.nAdc),
         Event.MXC_GPIO_InGet Normal_PIN_input (env.pin s.nPin),
         if c ≤ 426 then Event.MXC_GPIO_OutClr Normal_PIN_output
         else Event.MXC_GPIO_OutSet Normal_PIN_output] ++ rest) := by
  have hne : inputVoltOf c ≠ 1 / 2 := by
    intro h
    by_cases hc : c ≤ 426
    · exact absurd h (inputVoltOf_lt_half hc).ne
    · exact absurd h.symm (half_lt_inputVoltOf (by omega)).ne
  refine ⟨?_, hne, ⟨fun h => lt_of_le_of_ne h hne, le_of_lt⟩, inputVoltOf_le_half_iff c,
    voltExact_le_half_iff c, ?_⟩
  · unfold voltExact
    intro h
    rw [div_eq_iff (by norm_num : (1023 : ℚ) ≠ 0)] at h
    have h2 : ((c * 24 : ℕ) : ℚ) = (10230 : ℕ) := by push_cast; linarith
    have h3 : c * 24 = 10230 := by exact_mod_cast h2
    omega
  · intro env fuel s hc hpin
    obtain ⟨rest, h⟩ := loopBody_branch env fuel s hpin
    rw [hc] at h
    exact ⟨rest, h⟩

end LowPower
